import Mathlib

/-!
The typed growable array of `Lab-1/carray.c`

Shallow embedding of the array engine of `Lab-1/carray.c` and of the search
routine of `Lab-1/binary_search.c`.

* `size_t` quantities (`size`, `capacity`, `step`) are natural numbers.  An
  index is a C `int`.  The functions that hold one (`get_item`, `set_item`,
  `carray_insert`, `carray_pop`) are given on the value of that `int`; the
  way the host's `Py_ssize_t` reaches the `int` (format `n` of
  `PyArg_ParseTuple`, the `sq_item` and `sq_ass_item` slots) is the section
  on entry points, with `c_int` for the narrowing to 32 bits.  In the array
  engine sizes are taken below `INT_MAX`, where the cast `(int) self->size`
  keeps the value.
* The block `items` points to is a list with one entry per allocated slot;
  an entry is `none` until the slot has been written.  An access outside the
  block, a read of a slot never written, a store outside a local variable and
  an `int` overflow have no defined result in C and are the outcome
  `Failure.fault`.
* The two rows of `type_methods` are produced by the same macros
  (`INSERT`, `POP`, `REVERSED`); the macro bodies are definitions generic in
  the cell type, and a row is the record `object_methods` of what differs.
  Both rows are given: `type_methods_long`, and `type_methods_double` with a
  C `double` given by its exact value.
* Reference counts and allocation failure are not modelled.
-/

namespace Carray

/-! ## Host values -/

/-- Exception kinds the module raises through `PyErr_SetString`, or a host
call it makes leaves set. -/
inductive PyExc
  | TypeError
  | IndexError
  | ValueError
  | StopIteration
  deriving DecidableEq, Repr

/-- How a call can end without a result: a host exception, or an access
outside the allocated block (undefined behaviour in C). -/
inductive Failure
  | PyErr (exc : PyExc)
  | fault
  deriving DecidableEq, Repr

/-- Host objects that reach the module.  `long` is a Python `int` (a `bool`
is the `int` 0 or 1), `float` a finite Python `float` given by its exact
value, `float_inf` and `float_nan` the non-finite floats, `other` any object
that is neither (`str`, `None`, ...). -/
inductive PyObject
  | long (n : Int)
  | float (q : ℚ)
  | float_inf (negative : Bool)
  | float_nan
  | other (id : Nat)
  deriving DecidableEq

/-- The second argument of the constructor: a sized sequence, or an object
`PySequence_Size` fails on. -/
inductive PyIterable
  | sequence (xs : List PyObject)
  | unsized
  deriving DecidableEq

/-- Numeric value of a host number. -/
inductive PyNum
  | finite (q : ℚ)
  | inf (negative : Bool)
  | nan
  deriving DecidableEq

/-- Numeric value of an `int` or `float`; `none` for other objects. -/
def PyObject.num : PyObject → Option PyNum
  | .long n => some (.finite n)
  | .float q => some (.finite q)
  | .float_inf s => some (.inf s)
  | .float_nan => some .nan
  | .other _ => none

/-- Strict order of host numbers (exact, as Python compares `int` with
`float`); false whenever a NaN is involved. -/
def PyNum.lt : PyNum → PyNum → Bool
  | .finite a, .finite b => decide (a < b)
  | .finite _, .inf s => !s
  | .inf s, .finite _ => s
  | .inf s, .inf t => s && !t
  | _, _ => false

/-- Equality of host numbers; false whenever a NaN is involved. -/
def PyNum.eq : PyNum → PyNum → Bool
  | .finite a, .finite b => decide (a = b)
  | .inf s, .inf t => decide (s = t)
  | _, _ => false

/-- Comparison selectors of `PyObject_RichCompareBool`. -/
inductive CompareOp
  | Py_LT
  | Py_LE
  | Py_EQ
  | Py_NE
  | Py_GT
  | Py_GE
  deriving DecidableEq

/-- Result of `PyObject_RichCompareBool`: 1, 0, or -1 when the comparison
raises (ordering a number against a non-number). -/
def PyObject_RichCompareBool (v w : PyObject) (op : CompareOp) : Int :=
  match v.num, w.num with
  | some a, some b =>
    let r : Bool :=
      match op with
      | .Py_LT => a.lt b
      | .Py_LE => a.lt b || a.eq b
      | .Py_EQ => a.eq b
      | .Py_NE => !(a.eq b)
      | .Py_GT => b.lt a
      | .Py_GE => b.lt a || a.eq b
    if r then 1 else 0
  | _, _ =>
    match op with
    | .Py_EQ => if v = w then 1 else 0
    | .Py_NE => if v = w then 0 else 1
    | _ => -1

/-- `PyLong_Check`. -/
def PyLong_Check : PyObject → Bool
  | .long _ => true
  | _ => false

/-- `PyFloat_Check`. -/
def PyFloat_Check : PyObject → Bool
  | .float _ => true
  | .float_inf _ => true
  | .float_nan => true
  | _ => false

/-- `LONG_MAX` of `limits.h` on an LP64 platform. -/
def LONG_MAX : Int := 2 ^ 63 - 1

/-- `LONG_MIN` of `limits.h` on an LP64 platform. -/
def LONG_MIN : Int := -(2 ^ 63)

/-- `PySequence_Size`: the length, or -1 on an object without one. -/
def PySequence_Size : PyIterable → Int
  | .sequence xs => xs.length
  | .unsized => -1

/-! ## The type table -/

/-- `check_long`: 0 (here `ok`) when the three tests pass, otherwise -1 with
`TypeError` set. -/
def check_long (num : PyObject) : Except PyExc Unit :=
  if PyObject_RichCompareBool num (.long LONG_MAX) .Py_GT ≠ 0
      ∨ PyObject_RichCompareBool num (.long LONG_MIN) .Py_LT ≠ 0
      ∨ PyLong_Check num = false then
    .error .TypeError
  else
    .ok ()

/-- `PyLong_AsLong`: the value of an `int` that fits a C `long`, -1 (with an
error set) otherwise. -/
def PyLong_AsLong : PyObject → Int
  | .long n => if LONG_MIN ≤ n ∧ n ≤ LONG_MAX then n else -1
  | _ => -1

/-- `PyLong_FromLong`. -/
def PyLong_FromLong (n : Int) : PyObject := .long n

/-- What differs between the two rows of `type_methods`: the conversion used
by `set_T_item`, the one used by `get_T_item`, the validation function, the
tag of `get_T_info`, the code of `GET_TYPECODE` and `sizeof(T)`. -/
structure object_methods (α : Type) where
  as_c : PyObject → α
  from_c : α → PyObject
  get_type_info : String
  check_type : PyObject → Except PyExc Unit
  typecode : Char
  t_size : Nat

/-- Row 0 of `type_methods`: the `long` instantiation. -/
def type_methods_long : object_methods Int where
  as_c := PyLong_AsLong
  from_c := PyLong_FromLong
  get_type_info := "carray<long>("
  check_type := check_long
  typecode := 'i'
  t_size := 8

/-- `DBL_MAX` of `float.h` (IEEE 754 binary64): `(2 ^ 53 - 1) * 2 ^ 971`. -/
def DBL_MAX : ℚ := (((2 ^ 53 - 1) <<< 971 : Nat) : ℚ)

/-- `check_double`: 0 (here `ok`) when neither comparison holds, otherwise -1
with `TypeError` set.  There is no type test, and a comparison with NaN is
false. -/
def check_double (num : PyObject) : Except PyExc Unit :=
  if PyObject_RichCompareBool num (.float DBL_MAX) .Py_GT ≠ 0
      ∨ PyObject_RichCompareBool num (.float (-DBL_MAX)) .Py_LT ≠ 0 then
    .error .TypeError
  else
    .ok ()

/-- The number of low bits of `a` that do not fit a 53-bit significand, for
`a` below `2 ^ (fuel + 53)`. -/
def excess_bits : Nat → Nat → Nat
  | 0, _ => 0
  | fuel + 1, a => if a < 2 ^ 53 then 0 else excess_bits fuel (a / 2) + 1

/-- The double nearest to the integer `n`, a tie going to the even
significand: the conversion `PyLong_AsDouble` makes for an `int` of magnitude
below `2 ^ 1024`. -/
def long_to_double (n : Int) : Int :=
  let a := n.natAbs
  let e := excess_bits 1024 a
  let q := a / 2 ^ e
  let r := a % 2 ^ e
  let q1 := if 2 ^ e < 2 * r ∨ (2 * r = 2 ^ e ∧ q % 2 = 1) then q + 1 else q
  if n < 0 then -((q1 * 2 ^ e : Nat) : Int) else ((q1 * 2 ^ e : Nat) : Int)

/-- `PyFloat_AsDouble`: the value of a `float`, the nearest double for an
`int`, and -1.0 (with an error set) for an `int` beyond the doubles and for an
object that is no number.  A C `double` is given by its exact value. -/
def PyFloat_AsDouble : PyObject → PyNum
  | .float q => .finite q
  | .float_inf s => .inf s
  | .float_nan => .nan
  | .long n =>
    if (DBL_MAX : ℚ) < (long_to_double n : ℚ) ∨ (long_to_double n : ℚ) < -DBL_MAX then
      .finite (-1)
    else .finite (long_to_double n)
  | .other _ => .finite (-1)

/-- `PyFloat_FromDouble`. -/
def PyFloat_FromDouble : PyNum → PyObject
  | .finite q => .float q
  | .inf s => .float_inf s
  | .nan => .float_nan

/-- Row 1 of `type_methods`: the `double` instantiation. -/
def type_methods_double : object_methods PyNum where
  as_c := PyFloat_AsDouble
  from_c := PyFloat_FromDouble
  get_type_info := "carray<double>("
  check_type := check_double
  typecode := 'd'
  t_size := 8

/-! ## The object and its storage -/

/-- `carray_object` without the host header; `methods` is bound once by
`carray_init` and is the first argument of every operation. -/
structure carray_object (α : Type) where
  t_size : Nat
  step : Nat
  size : Nat
  capacity : Nat
  items : List (Option α)
  deriving DecidableEq

/-- `PyMem_Malloc` for `n` slots: a fresh block, nothing written. -/
def PyMem_Malloc {α : Type} (n : Nat) : List (Option α) :=
  List.replicate n none

/-- `PyMem_Realloc` to `n` slots: the common prefix is kept, added slots are
unwritten. -/
def PyMem_Realloc {α : Type} (items : List (Option α)) (n : Nat) : List (Option α) :=
  items.take n ++ List.replicate (n - items.length) none

/-- Read of slot `i`. -/
def cell_read {α : Type} (items : List (Option α)) (i : Nat) : Except Failure α :=
  match items[i]? with
  | some (some x) => .ok x
  | _ => .error .fault

/-- Write of slot `i`. -/
def cell_write {α : Type} (items : List (Option α)) (i : Nat) (x : α) :
    Except Failure (List (Option α)) :=
  if i < items.length then .ok (items.set i (some x)) else .error .fault

/-- `memmove` of `n` slots from slot `src` to slot `dst` inside one block
(the source range is read before anything is written). -/
def memmove {α : Type} (items : List (Option α)) (dst src n : Nat) :
    Except Failure (List (Option α)) :=
  if n = 0 then .ok items
  else if src + n ≤ items.length ∧ dst + n ≤ items.length then
    .ok (items.take dst ++ ((items.drop src).take n ++ items.drop (dst + n)))
  else .error .fault

/-- `set_long_item` / `set_double_item`. -/
def set_T_item {α : Type} (m : object_methods α) (self : carray_object α) (index : Nat)
    (num : PyObject) : Except Failure (carray_object α) :=
  match cell_write self.items index (m.as_c num) with
  | .error f => .error f
  | .ok items => .ok { self with items := items }

/-- `get_long_item` / `get_double_item`. -/
def get_T_item {α : Type} (m : object_methods α) (self : carray_object α) (index : Nat) :
    Except Failure PyObject :=
  match cell_read self.items index with
  | .error f => .error f
  | .ok x => .ok (m.from_c x)

/-- `set_item`, on the value `index` of its `int` parameter.  The function is
installed in the `sq_ass_item` slot: `sq_ass_item` below is the call as the
host makes it. -/
def set_item {α : Type} (m : object_methods α) (self : carray_object α) (index : Int)
    (num : PyObject) : Except Failure (carray_object α) :=
  if 0 ≤ index ∧ index < self.size then
    match m.check_type num with
    | .error e => .error (.PyErr e)
    | .ok _ => set_T_item m self index.toNat num
  else .error (.PyErr .IndexError)

/-- `get_item`, on the value `index` of its `int` parameter.  The function is
installed in the `sq_item` slot: `sq_item` below is the call as the host makes
it. -/
def get_item {α : Type} (m : object_methods α) (self : carray_object α) (index : Int) :
    Except Failure PyObject :=
  if 0 ≤ index ∧ index < self.size then get_T_item m self index.toNat
  else .error (.PyErr .IndexError)

/-- `get_len` (the `sq_length` slot). -/
def get_len {α : Type} (self : carray_object α) : Int := self.size

/-- `increase_capacity`. -/
def increase_capacity {α : Type} (self : carray_object α) : carray_object α :=
  if self.size ≥ self.capacity then
    { self with
      capacity := self.capacity * 2 + 1
      items := PyMem_Realloc self.items (self.capacity * 2 + 1) }
  else self

/-- `reduce_capacity`. -/
def reduce_capacity {α : Type} (self : carray_object α) : carray_object α :=
  if self.size ≤ self.capacity / 2 then
    { self with capacity := self.size, items := PyMem_Realloc self.items self.size }
  else self

/-! ## Operations -/

/-- `carray_append`. -/
def carray_append {α : Type} (m : object_methods α) (self : carray_object α)
    (num : PyObject) : Except Failure (carray_object α) :=
  match m.check_type num with
  | .error e => .error (.PyErr e)
  | .ok _ =>
    let s := increase_capacity self
    match set_T_item m s s.size num with
    | .error f => .error f
    | .ok s1 => .ok { s1 with size := s1.size + 1 }

/-- `get_index`. -/
def get_index (size : Nat) (index : Int) : Int :=
  if index < 0 then (size : Int) + index else index

/-- `INSERT(type)`: `insert_long` / `insert_double`. -/
def insert_T {α : Type} (m : object_methods α) (self : carray_object α) (index : Nat)
    (num : PyObject) : Except Failure (carray_object α) :=
  match memmove self.items (index + 1) index (self.size - index) with
  | .error f => .error f
  | .ok items =>
    match set_T_item m { self with items := items } index num with
    | .error f => .error f
    | .ok s1 => .ok { s1 with size := s1.size + 1 }

/-- `carray_insert` after its `PyArg_ParseTuple`, on the value `index` of the
`int` variable and the object `num`; the parsing step is `carray_insert_args`
below. -/
def carray_insert {α : Type} (m : object_methods α) (self : carray_object α)
    (index : Int) (num : PyObject) : Except Failure (carray_object α) :=
  match m.check_type num with
  | .error e => .error (.PyErr e)
  | .ok _ =>
    let index := get_index self.size index
    let index := if index < 0 then 0 else if index > self.size then (self.size : Int) else index
    insert_T m (increase_capacity self) index.toNat num

/-- `POP(type)`: `pop_long` / `pop_double`. -/
def pop_T {α : Type} (m : object_methods α) (self : carray_object α) (index : Nat) :
    Except Failure (carray_object α × PyObject) :=
  match get_T_item m self index with
  | .error f => .error f
  | .ok num =>
    match memmove self.items index (index + 1) (self.size - index - 1) with
    | .error f => .error f
    | .ok items => .ok ({ self with items := items, size := self.size - 1 }, num)

/-- `carray_pop` after its `PyArg_ParseTuple`: `arg` is the value the `int`
variable `index` has received from the call, `none` when the call has no
argument and the variable keeps `(int) self->size - 1`; the parsing step is
`carray_pop_args` below. -/
def carray_pop {α : Type} (m : object_methods α) (self : carray_object α)
    (arg : Option Int) : Except Failure (carray_object α × PyObject) :=
  let index := arg.getD ((self.size : Int) - 1)
  let index := get_index self.size index
  if 0 ≤ index ∧ index < self.size then
    match pop_T m self index.toNat with
    | .error f => .error f
    | .ok (s, num) => .ok (reduce_capacity s, num)
  else .error (.PyErr .IndexError)

/-- The search loop of `carray_remove`, entered at `i` with `fuel` iterations
left: the first index whose element compares equal, -1 if there is none. -/
def carray_remove_scan {α : Type} (m : object_methods α) (self : carray_object α)
    (num : PyObject) : Nat → Nat → Except Failure Int
  | 0, _ => .ok (-1)
  | fuel + 1, i =>
    match get_T_item m self i with
    | .error f => .error f
    | .ok item =>
      if PyObject_RichCompareBool num item .Py_EQ ≠ 0 then .ok i
      else carray_remove_scan m self num fuel (i + 1)

/-- `carray_remove`. -/
def carray_remove {α : Type} (m : object_methods α) (self : carray_object α)
    (num : PyObject) : Except Failure (carray_object α) :=
  if PyFloat_Check num = false ∧ PyLong_Check num = false then .ok self
  else
    match carray_remove_scan m self num self.size 0 with
    | .error f => .error f
    | .ok index =>
      if index ≠ -1 then
        match pop_T m self index.toNat with
        | .error f => .error f
        | .ok (s, _) => .ok (reduce_capacity s)
      else .ok self

/-- `carray_new`. -/
def carray_new {α : Type} : carray_object α :=
  { t_size := 0, step := 0, size := 0, capacity := 0, items := [] }

/-- The filling loop of `carray_init`, entered at `i` with the source
elements from `i` on. -/
def carray_init_loop {α : Type} (m : object_methods α) :
    carray_object α → Nat → List PyObject → Except Failure (carray_object α)
  | self, _, [] => .ok self
  | self, i, x :: rest =>
    match set_item m self i x with
    | .error f => .error f
    | .ok s => carray_init_loop m s (i + 1) rest

/-- `carray_init` once the row `m` of `type_methods` is selected. -/
def carray_init_T {α : Type} (m : object_methods α) (self : carray_object α)
    (iterable : Option PyIterable) : Except Failure (carray_object α) :=
  let self := { self with t_size := m.t_size }
  match iterable with
  | none => .ok self
  | some it =>
    if PySequence_Size it = -1 then .error (.PyErr .TypeError)
    else
      match it with
      | .unsized => .error (.PyErr .TypeError)
      | .sequence xs =>
        carray_init_loop m
          { self with
            size := xs.length
            capacity := xs.length
            items := PyMem_Malloc xs.length } 0 xs

/-- `carray_init` on the object `carray_new` returns, for any row 1 of
`type_methods`; the source has `type_methods_double` there. -/
def carray_init {D : Type} (type_methods_double : object_methods D) (typecode : Char)
    (iterable : Option PyIterable) :
    Except Failure (carray_object Int ⊕ carray_object D) :=
  if typecode = 'i' then
    (carray_init_T type_methods_long carray_new iterable).map Sum.inl
  else if typecode = 'd' then
    (carray_init_T type_methods_double carray_new iterable).map Sum.inr
  else .error (.PyErr .ValueError)

/-- The copy loop of `REVERSED(type)`, entered at `i` with `fuel` iterations
left; `dst` is the block of the copy, `src` the block of the source. -/
def reversed_loop {α : Type} (src : List (Option α)) (size : Nat) :
    Nat → Nat → List (Option α) → Except Failure (List (Option α))
  | 0, _, dst => .ok dst
  | fuel + 1, i, dst =>
    match cell_read src (size - i - 1) with
    | .error f => .error f
    | .ok x =>
      match cell_write dst i x with
      | .error f => .error f
      | .ok dst1 =>
        match cell_read src i with
        | .error f => .error f
        | .ok y =>
          match cell_write dst1 (size - i - 1) y with
          | .error f => .error f
          | .ok dst2 => reversed_loop src size fuel (i + 1) dst2

/-- `REVERSED(type)`: `reversed_long` / `reversed_double`. -/
def reversed_T {α : Type} (m : object_methods α) (obj self : carray_object α) (size : Nat) :
    Except Failure (carray_object α) :=
  match carray_init_T m obj none with
  | .error f => .error f
  | .ok obj =>
    if size = 0 then .ok obj
    else
      match cell_read self.items (size / 2) with
      | .error f => .error f
      | .ok mid =>
        match cell_write (PyMem_Malloc size) (size / 2) mid with
        | .error f => .error f
        | .ok items =>
          match reversed_loop self.items size (size / 2) 0 items with
          | .error f => .error f
          | .ok items => .ok { obj with items := items }

/-- `carray_reversed`. -/
def carray_reversed {α : Type} (m : object_methods α) (self : carray_object α) :
    Except Failure (carray_object α) :=
  match reversed_T m carray_new self self.size with
  | .error f => .error f
  | .ok r_self => .ok { r_self with size := self.size, capacity := self.capacity }

/-- Modelled from the spec: the negative-index rule of `get`.  `a[i]` reaches
the module through the host's `PySequence_GetItem`, which is not part of this
repository: it adds `sq_length` (here `get_len`) to a negative index once and
then enters the `sq_item` slot (here `get_item`). -/
def PySequence_GetItem {α : Type} (m : object_methods α) (self : carray_object α) (index : Int) :
    Except Failure PyObject :=
  get_item m self (if index < 0 then index + get_len self else index)

/-- Modelled from the spec: the negative-index rule of `set`, applied by the
host's `PySequence_SetItem` before it enters the `sq_ass_item` slot (here
`set_item`). -/
def PySequence_SetItem {α : Type} (m : object_methods α) (self : carray_object α) (index : Int)
    (num : PyObject) : Except Failure (carray_object α) :=
  set_item m self (if index < 0 then index + get_len self else index) num

/-! ## Specification vocabulary -/

/-- The array holds the cell sequence `xs`: `size` is its length and the first
`size` slots of the block are written and carry the elements of `xs` in order. -/
def Models {α : Type} (a : carray_object α) (xs : List α) : Prop :=
  a.size = xs.length ∧ a.items.take a.size = xs.map some

/-- Invariants of the data model: the length is within the capacity and the
block has at least `capacity` slots. -/
def Valid {α : Type} (a : carray_object α) : Prop :=
  a.size ≤ a.capacity ∧ a.capacity ≤ a.items.length

/-- A host `int` whose value lies within `[LONG_MIN, LONG_MAX]`. -/
def fits_long (v : PyObject) : Prop :=
  ∃ n : Int, v = .long n ∧ LONG_MIN ≤ n ∧ n ≤ LONG_MAX

/-- The index a host-level index denotes under the negative-index rule. -/
def resolved (length : Nat) (i : Int) : Int :=
  if 0 ≤ i then i else (length : Int) + i

/-- Appends the values of a list in order, stopping at the first failure. -/
def append_all {α : Type} (m : object_methods α) :
    carray_object α → List PyObject → Except Failure (carray_object α)
  | a, [] => .ok a
  | a, v :: vs =>
    match carray_append m a v with
    | .error f => .error f
    | .ok a1 => append_all m a1 vs

/-- States an array of row `m` can be in: the result of a successful
construction, followed by any number of successful calls of append, insert,
pop, remove, item assignment and reversed copy. -/
inductive Reachable {α : Type} (m : object_methods α) : carray_object α → Prop
  | construct (iterable : Option PyIterable) (a : carray_object α) :
      carray_init_T m carray_new iterable = .ok a → Reachable m a
  | append (a a1 : carray_object α) (v : PyObject) :
      Reachable m a → carray_append m a v = .ok a1 → Reachable m a1
  | insert (a a1 : carray_object α) (i : Int) (v : PyObject) :
      Reachable m a → carray_insert m a i v = .ok a1 → Reachable m a1
  | pop (a a1 : carray_object α) (arg : Option Int) (v : PyObject) :
      Reachable m a → carray_pop m a arg = .ok (a1, v) → Reachable m a1
  | remove (a a1 : carray_object α) (v : PyObject) :
      Reachable m a → carray_remove m a v = .ok a1 → Reachable m a1
  | set (a a1 : carray_object α) (i : Int) (v : PyObject) :
      Reachable m a → PySequence_SetItem m a i v = .ok a1 → Reachable m a1
  | reversed (a a1 : carray_object α) :
      Reachable m a → carray_reversed m a = .ok a1 → Reachable m a1

/-! ## Introspection, comparison and iteration -/

/-- `get_sizeof`. -/
def get_sizeof {α : Type} (self : carray_object α) : Nat :=
  self.capacity * self.t_size

/-- The three objects `carray_compare` returns. -/
inductive PyCompareResult
  | Py_True
  | Py_False
  | Py_NotImplemented
  deriving DecidableEq, Repr

/-- `PySequence_GetItem` on the other operand: the element, or `none` (NULL)
outside the sequence or on an object that is no sequence. -/
def sequence_item (it : PyIterable) (i : Int) : Option PyObject :=
  match it with
  | .sequence xs => if 0 ≤ i then xs[i.toNat]? else none
  | .unsized => none

/-- The loop of `carray_compare`, entered at `i` with `fuel` iterations left. -/
def carray_compare_loop {α : Type} (m : object_methods α) (self : carray_object α)
    (other : PyIterable) : Nat → Nat → Except Failure PyCompareResult
  | 0, _ => .ok .Py_True
  | fuel + 1, i =>
    match get_T_item m self i with
    | .error f => .error f
    | .ok item =>
      match sequence_item other i with
      | none => .error .fault
      | some y =>
        if PyObject_RichCompareBool item y .Py_EQ = 0 then .ok .Py_False
        else carray_compare_loop m self other fuel (i + 1)

/-- `carray_compare`. -/
def carray_compare {α : Type} (m : object_methods α) (self : carray_object α)
    (other : PyIterable) (op : CompareOp) : Except Failure PyCompareResult :=
  if op ≠ .Py_EQ then .ok .Py_NotImplemented
  else if (self.size : Int) ≠ PySequence_Size other then .ok .Py_False
  else carray_compare_loop m self other self.size 0

/-- `carray_iter`: the object returned is the array itself, with the cursor reset. -/
def carray_iter {α : Type} (self : carray_object α) : carray_object α :=
  { self with step := 0 }

/-- `carray_next`: the array after the call and what the call returns. -/
def carray_next {α : Type} (m : object_methods α) (self : carray_object α) :
    carray_object α × Except Failure PyObject :=
  if self.step < self.size then
    let index := self.step
    let s := { self with step := self.step + 1 }
    (s, get_T_item m s index)
  else (self, .error (.PyErr .StopIteration))

/-- `n` consecutive advance steps: the array after them and what each returned. -/
def carray_next_n {α : Type} (m : object_methods α) :
    Nat → carray_object α → carray_object α × List (Except Failure PyObject)
  | 0, s => (s, [])
  | n + 1, s =>
    ((carray_next_n m n (carray_next m s).1).1,
      (carray_next m s).2 :: (carray_next_n m n (carray_next m s).1).2)

/-! ## Entry points as the host calls them

`get_item`, `set_item`, `carray_insert` and `carray_pop` above are given on
the value their `int` index holds.  The host hands an index over as a
`Py_ssize_t`; the definitions of this section are the same calls seen from the
host. -/

/-- `INT_MAX` of `limits.h`. -/
def INT_MAX : Int := 2 ^ 31 - 1

/-- `INT_MIN` of `limits.h`. -/
def INT_MIN : Int := -(2 ^ 31)

/-- `sizeof(int)` on an LP64 platform. -/
def sizeof_int : Nat := 4

/-- `sizeof(Py_ssize_t)` on an LP64 platform. -/
def sizeof_Py_ssize_t : Nat := 8

/-- The `int` made of the low 32 bits of `z` (two's complement): what an `int`
parameter holds of a `Py_ssize_t` argument, and what the cast `(int)` yields. -/
def c_int (z : Int) : Int := (z + 2 ^ 31) % 2 ^ 32 - 2 ^ 31

/-- Format `n` of `PyArg_ParseTuple`, given the address of a variable of
`dest_size` bytes: the converter stores a `Py_ssize_t`, `sizeof_Py_ssize_t`
bytes, through the pointer.  A variable of that size receives the value.  With
a smaller variable the store runs past it, which has no defined result in C;
what lands in an `int` variable itself are the low bytes, `c_int value`. -/
def parse_n (dest_size : Nat) (value : Int) : Except Failure Int :=
  if sizeof_Py_ssize_t ≤ dest_size then .ok value else .error .fault

/-- `carray_insert` from its first statement: `PyArg_ParseTuple(args, "nO",
&index, &num)` with `int index`, then the rest of the function. -/
def carray_insert_args {α : Type} (m : object_methods α) (self : carray_object α)
    (index : Int) (num : PyObject) : Except Failure (carray_object α) :=
  match parse_n sizeof_int index with
  | .error f => .error f
  | .ok index => carray_insert m self index num

/-- `carray_pop` from its first statement: `PyArg_ParseTuple(args, "|n",
&index)` with `int index`, which stores only when the call has an argument,
then the rest of the function. -/
def carray_pop_args {α : Type} (m : object_methods α) (self : carray_object α)
    (arg : Option Int) : Except Failure (carray_object α × PyObject) :=
  match arg with
  | none => carray_pop m self none
  | some value =>
    match parse_n sizeof_int value with
    | .error f => .error f
    | .ok index => carray_pop m self (some index)

/-- The `sq_item` slot as the host enters it: the slot type `ssizeargfunc`
passes a `Py_ssize_t`, and `get_item`, cast into the slot, reads its `int`
parameter from it. -/
def sq_item {α : Type} (m : object_methods α) (self : carray_object α) (i : Int) :
    Except Failure PyObject :=
  get_item m self (c_int i)

/-- `set_item` returning the object as the call leaves it together with the
result, so that what the call did to the object can be stated. -/
def set_item_run {α : Type} (m : object_methods α) (self : carray_object α) (index : Int)
    (num : PyObject) : carray_object α × Except Failure Unit :=
  if 0 ≤ index ∧ index < self.size then
    match m.check_type num with
    | .error e => (self, .error (.PyErr e))
    | .ok _ =>
      match set_T_item m self index.toNat num with
      | .error f => (self, .error f)
      | .ok s1 => (s1, .ok ())
  else (self, .error (.PyErr .IndexError))

/-- The `sq_ass_item` slot as the host enters it: the slot type
`ssizeobjargproc` passes a `Py_ssize_t`, and `set_item`, cast into the slot,
reads its `int` parameter from it.  The array after the call and the result. -/
def sq_ass_item {α : Type} (m : object_methods α) (self : carray_object α) (i : Int)
    (num : PyObject) : carray_object α × Except Failure Unit :=
  set_item_run m self (c_int i) num

/-! ## Binary search (Lab-1/binary_search.c) -/

/-- The `while` loop of `binary_search` with `fuel` iterations allowed: the
final `left` and `right` and the exception left set, or `none` when the loop
is still running after `fuel` iterations.  `left`, `right` and `mid` are
`int`: a sum `left + right` above `INT_MAX` has no defined result.  (Inside
the loop `left + right` is positive, so the division rounds as in C.)  The
result of `PyObject_RichCompareBool` is used as a truth value; when it is -1
the comparison has raised and the exception stays set. -/
def binary_search_loop (item : PyObject) (iterable : PyIterable) :
    Nat → Int → Int → Option PyExc → Option (Except Failure (Int × Int × Option PyExc))
  | 0, left, right, raised =>
    if left < right then none else some (.ok (left, right, raised))
  | fuel + 1, left, right, raised =>
    if left < right then
      if INT_MAX < left + right then some (.error .fault)
      else
        let mid := (left + right) / 2
        match sequence_item iterable mid with
        | none => some (.error .fault)
        | some x =>
          let c := PyObject_RichCompareBool item x .Py_LE
          let raised := if c = -1 then some PyExc.TypeError else raised
          if c ≠ 0 then
            binary_search_loop item iterable fuel left mid raised
          else
            binary_search_loop item iterable fuel (mid + 1) right raised
    else some (.ok (left, right, raised))

/-- `binary_search`, the loop given as many iterations as the `int` size
counts: the object returned (`none` is `None`, `some i` the index `i`)
together with the exception left set, if any; the outer `none` is a loop that
has not ended.  `right` starts at `(int) PySequence_Size(iterable) - 1`: the
size is narrowed to `int` before the subtraction, which has no defined result
at `INT_MIN`.  `PySequence_Size` sets `TypeError` when it returns -1.  The
function never tests for an exception; the host turns a result returned with
an exception set into `SystemError`. -/
def binary_search (iterable : PyIterable) (item : PyObject) :
    Option (Except Failure (Option Int × Option PyExc)) :=
  let size := c_int (PySequence_Size iterable)
  let raised : Option PyExc :=
    if PySequence_Size iterable = -1 then some PyExc.TypeError else none
  if size = INT_MIN then some (.error .fault)
  else
    match binary_search_loop item iterable size.toNat 0 (size - 1) raised with
    | none => none
    | some (.error f) => some (.error f)
    | some (.ok (left, right, raised)) =>
      if right < 0 then some (.ok (none, raised))
      else
        match sequence_item iterable left with
        | none => some (.error .fault)
        | some x =>
          let c := PyObject_RichCompareBool item x .Py_NE
          let raised := if c = -1 then some PyExc.TypeError else raised
          if c ≠ 0 then some (.ok (none, raised))
          else some (.ok (some left, raised))

/-- The elements of the host's `range(n)`. -/
def range_objects (n : Nat) : List PyObject :=
  (List.range n).map (fun (k : Nat) => PyObject.long k)

/-- The exact value of a host `int` or finite `float`. -/
def PyObject.value : PyObject → ℚ
  | .long n => n
  | .float q => q
  | _ => 0

/-- A host `int` or finite `float`. -/
def PyObject.is_finite_number (v : PyObject) : Prop :=
  v.num = some (.finite v.value)

/-! ## Storage lemmas -/

theorem Models.items_eq {α : Type} {a : carray_object α} {xs : List α} (h : Models a xs) :
    ∃ rest, a.items = xs.map some ++ rest ∧ xs.length + rest.length = a.items.length := by
  have hl : xs.length ≤ a.items.length := by
    have := congrArg List.length h.2
    simp at this
    omega
  refine ⟨a.items.drop a.size, ?_, ?_⟩
  · rw [← h.2, List.take_append_drop]
  · rw [List.length_drop, h.1]
    omega

theorem Models.of_items {α : Type} {a : carray_object α} {xs : List α}
    (rest : List (Option α)) (hs : a.size = xs.length) (hi : a.items = xs.map some ++ rest) :
    Models a xs := by
  refine ⟨hs, ?_⟩
  rw [hi, hs]
  simp

theorem Models.unique {α : Type} {a : carray_object α} {xs ys : List α} (h : Models a xs)
    (h1 : Models a ys) : xs = ys := by
  have := h.2.symm.trans h1.2
  exact List.map_injective_iff.mpr (Option.some_injective α) this

theorem realloc_keep {α : Type} (A rest : List (Option α)) (n : Nat) (hn : A.length ≤ n) :
    ∃ rest1, PyMem_Realloc (A ++ rest) n = A ++ rest1 ∧ A.length + rest1.length = n := by
  refine ⟨rest.take (n - A.length) ++ List.replicate (n - (A.length + rest.length)) none, ?_, ?_⟩
  · unfold PyMem_Realloc
    rw [List.take_append_eq_append_take]
    simp [List.take_of_length_le, hn]
  · simp
    omega

theorem realloc_length {α : Type} (items : List (Option α)) (n : Nat) :
    (PyMem_Realloc items n).length = n := by
  unfold PyMem_Realloc
  simp
  omega

theorem cell_read_mid {α : Type} (A rest : List (Option α)) (x : α) :
    cell_read (A ++ some x :: rest) A.length = .ok x := by
  have h : (A ++ some x :: rest)[A.length]? = some (some x) := by
    rw [List.getElem?_append_right (Nat.le_refl _)]
    simp
  unfold cell_read
  rw [h]

theorem cell_write_mid {α : Type} (A rest : List (Option α)) (c : Option α) (x : α) :
    cell_write (A ++ c :: rest) A.length x = .ok (A ++ some x :: rest) := by
  unfold cell_write
  simp

theorem memmove_right {α : Type} (A B : List (Option α)) (c : Option α)
    (rest : List (Option α)) :
    memmove (A ++ (B ++ c :: rest)) (A.length + 1) A.length B.length
      = .ok (A ++ ((B ++ [c]).take 1 ++ (B ++ rest))) := by
  unfold memmove
  cases B with
  | nil => simp
  | cons b B =>
    have h3 : A.length + 1 + (b :: B).length = A.length + ((b :: B).length + 1) := by omega
    rw [if_neg (by simp), if_pos (by simp; omega), List.take_append, List.drop_left,
      List.take_left, h3, List.drop_append, List.drop_append]
    simp

theorem memmove_left {α : Type} (A B : List (Option α)) (c : Option α)
    (rest : List (Option α)) :
    memmove (A ++ (c :: (B ++ rest))) A.length (A.length + 1) B.length
      = .ok (A ++ (B ++ (c :: (B ++ rest)).drop B.length)) := by
  unfold memmove
  cases B with
  | nil => simp
  | cons b B =>
    rw [if_neg (by simp), if_pos (by simp; omega), List.take_left, List.drop_append,
      List.drop_append]
    simp

/-- Raw form of `insert_T`. -/
theorem insert_T_raw {α : Type} (m : object_methods α) (self : carray_object α)
    (A B : List (Option α)) (c : Option α) (rest : List (Option α)) (num : PyObject)
    (hi : self.items = A ++ (B ++ c :: rest)) (hs : self.size = A.length + B.length) :
    insert_T m self A.length num
      = .ok { self with
              items := A ++ (some (m.as_c num) :: (B ++ rest))
              size := self.size + 1 } := by
  have hn : self.size - A.length = B.length := by omega
  unfold insert_T
  rw [hn, hi, memmove_right]
  have ht : ∃ d, (B ++ [c]).take 1 = [d] := by
    cases B with
    | nil => exact ⟨c, rfl⟩
    | cons b B => exact ⟨b, rfl⟩
  obtain ⟨d, hd⟩ := ht
  rw [hd]
  simp only [set_T_item, List.singleton_append, cell_write_mid]

theorem pop_T_raw {α : Type} (m : object_methods α) (self : carray_object α)
    (A B : List (Option α)) (x : α) (rest : List (Option α))
    (hi : self.items = A ++ (some x :: (B ++ rest)))
    (hs : self.size = A.length + 1 + B.length) :
    pop_T m self A.length
      = .ok ({ self with
               items := A ++ (B ++ (some x :: (B ++ rest)).drop B.length)
               size := self.size - 1 }, m.from_c x) := by
  have hn : self.size - A.length - 1 = B.length := by omega
  unfold pop_T get_T_item
  rw [hn, hi, cell_read_mid, memmove_left]

/-! ## Effect of the storage routines on a modelled array -/

theorem increase_capacity_spec {α : Type} (a : carray_object α) (xs : List α)
    (h : Models a xs) (hv : Valid a) :
    Models (increase_capacity a) xs
      ∧ (increase_capacity a).size = a.size
      ∧ a.size < (increase_capacity a).capacity
      ∧ (increase_capacity a).capacity ≤ (increase_capacity a).items.length
      ∧ (increase_capacity a).capacity
          = (if a.size = a.capacity then 2 * a.capacity + 1 else a.capacity)
      ∧ (increase_capacity a).t_size = a.t_size
      ∧ (increase_capacity a).step = a.step := by
  obtain ⟨rest, hi, hl⟩ := h.items_eq
  obtain ⟨hc, hb⟩ := hv
  unfold increase_capacity
  by_cases hg : a.size ≥ a.capacity
  · have he : a.size = a.capacity := by omega
    rw [if_pos hg]
    obtain ⟨rest1, hr, hl1⟩ := realloc_keep (xs.map some) rest (a.capacity * 2 + 1)
      (by simp; have := h.1; omega)
    refine ⟨Models.of_items rest1 h.1 (by simp only [hi, hr]), rfl, ?_, ?_, ?_, rfl, rfl⟩
    · simp only; omega
    · simp only [realloc_length]; omega
    · simp only [if_pos he]; omega
  · rw [if_neg hg]
    have hne : a.size ≠ a.capacity := by omega
    refine ⟨h, rfl, by omega, hb, ?_, rfl, rfl⟩
    rw [if_neg hne]

theorem reduce_capacity_spec {α : Type} (a : carray_object α) (xs : List α)
    (h : Models a xs) :
    Models (reduce_capacity a) xs
      ∧ (reduce_capacity a).size = a.size
      ∧ (reduce_capacity a).capacity
          = (if a.size ≤ a.capacity / 2 then a.size else a.capacity)
      ∧ (reduce_capacity a).items.length
          = (if a.size ≤ a.capacity / 2 then a.size else a.items.length)
      ∧ (reduce_capacity a).t_size = a.t_size
      ∧ (reduce_capacity a).step = a.step := by
  obtain ⟨rest, hi, hl⟩ := h.items_eq
  unfold reduce_capacity
  by_cases hg : a.size ≤ a.capacity / 2
  · simp only [if_pos hg]
    obtain ⟨rest1, hr, hl1⟩ := realloc_keep (xs.map some) rest a.size (by simp [h.1])
    refine ⟨Models.of_items rest1 h.1 (by simp only [hi, hr]), ?_⟩
    simp [realloc_length]
  · simp only [if_neg hg]
    exact ⟨h, by simp⟩

theorem insert_T_spec {α : Type} (m : object_methods α) (s : carray_object α) (xs : List α)
    (p : Nat) (num : PyObject) (h : Models s xs) (hp : p ≤ xs.length)
    (hl : s.size < s.items.length) :
    ∃ s1, insert_T m s p num = .ok s1
      ∧ Models s1 (xs.take p ++ m.as_c num :: xs.drop p)
      ∧ s1.size = s.size + 1
      ∧ s1.capacity = s.capacity
      ∧ s1.items.length = s.items.length
      ∧ s1.t_size = s.t_size
      ∧ s1.step = s.step := by
  obtain ⟨rest, hi, hlen⟩ := h.items_eq
  have hs := h.1
  cases rest with
  | nil => simp at hlen; omega
  | cons c rest =>
    have hA : ((xs.take p).map some).length = p := by simp; omega
    have hi1 : s.items = (xs.take p).map some ++ ((xs.drop p).map some ++ c :: rest) := by
      rw [hi, ← List.append_assoc, ← List.map_append, List.take_append_drop]
    have hs1 : s.size = ((xs.take p).map some).length + ((xs.drop p).map some).length := by
      simp; omega
    have hraw := insert_T_raw m s _ _ c rest num hi1 hs1
    rw [hA] at hraw
    refine ⟨_, hraw, ?_, rfl, rfl, ?_, rfl, rfl⟩
    · refine Models.of_items rest ?_ ?_
      · simp; omega
      · simp
    · simp only [hi]
      simp
      omega

theorem set_T_item_end {α : Type} (m : object_methods α) (s : carray_object α) (xs : List α)
    (num : PyObject) (h : Models s xs) (hl : s.size < s.items.length) :
    ∃ s1, set_T_item m s s.size num = .ok s1
      ∧ Models { s1 with size := s1.size + 1 } (xs ++ [m.as_c num])
      ∧ s1.size = s.size
      ∧ s1.capacity = s.capacity
      ∧ s1.items.length = s.items.length
      ∧ s1.t_size = s.t_size
      ∧ s1.step = s.step := by
  obtain ⟨rest, hi, hlen⟩ := h.items_eq
  have hs := h.1
  cases rest with
  | nil => simp at hlen; omega
  | cons c rest =>
    have hA : (xs.map some).length = s.size := by simp; omega
    have hw := cell_write_mid (xs.map some) rest c (m.as_c num)
    rw [hA, ← hi] at hw
    refine ⟨{ s with items := xs.map some ++ some (m.as_c num) :: rest }, ?_, ?_, rfl, rfl, ?_,
      rfl, rfl⟩
    · simp only [set_T_item, hw]
    · refine Models.of_items rest ?_ ?_
      · simp; omega
      · simp
    · simp only [hi]
      simp

theorem pop_T_spec {α : Type} (m : object_methods α) (a : carray_object α) (xs : List α)
    (p : Nat) (h : Models a xs) (hp : p < xs.length) :
    ∃ a1, pop_T m a p = .ok (a1, m.from_c xs[p])
      ∧ Models a1 (xs.eraseIdx p)
      ∧ a1.size = a.size - 1
      ∧ a1.capacity = a.capacity
      ∧ a1.items.length = a.items.length
      ∧ a1.t_size = a.t_size
      ∧ a1.step = a.step := by
  obtain ⟨rest, hi, hlen⟩ := h.items_eq
  have hs := h.1
  have hA : ((xs.take p).map some).length = p := by simp; omega
  have hx : xs = xs.take p ++ xs[p] :: xs.drop (p + 1) := by
    rw [← List.drop_eq_getElem_cons hp, List.take_append_drop]
  have hi1 : a.items
      = (xs.take p).map some ++ (some xs[p] :: ((xs.drop (p + 1)).map some ++ rest)) := by
    have hm : xs.map some
        = (xs.take p).map some ++ some xs[p] :: (xs.drop (p + 1)).map some := by
      conv_lhs => rw [hx]
      rw [List.map_append, List.map_cons]
    rw [hi, hm, List.append_assoc, List.cons_append]
  have hs1 : a.size
      = ((xs.take p).map some).length + 1 + ((xs.drop (p + 1)).map some).length := by
    simp; omega
  have hraw := pop_T_raw m a _ _ xs[p] rest hi1 hs1
  rw [hA] at hraw
  refine ⟨_, hraw, ?_, rfl, rfl, ?_, rfl, rfl⟩
  · refine Models.of_items
      (List.drop (List.map some (List.drop (p + 1) xs)).length
        (some xs[p] :: (List.map some (List.drop (p + 1) xs) ++ rest))) ?_ ?_
    · simp [List.length_eraseIdx, hp]; omega
    · simp only [List.eraseIdx_eq_take_drop_succ, List.map_append, List.append_assoc]
  · simp only [hi]
    simp
    omega

/-! ## Effect of the operations on a modelled array -/

/-- The index `carray_insert` hands to `insert_T`. -/
theorem insert_index_eq (size : Nat) (i : Int) :
    (let index := get_index size i
     if index < 0 then (0 : Int) else if index > size then (size : Int) else index)
      = max 0 (min (get_index size i) size) := by
  simp only
  split_ifs <;> omega

theorem carray_append_spec {α : Type} (m : object_methods α) (a : carray_object α)
    (xs : List α) (num : PyObject) (h : Models a xs) (hv : Valid a)
    (hc : m.check_type num = .ok ()) :
    ∃ a1, carray_append m a num = .ok a1
      ∧ Models a1 (xs ++ [m.as_c num])
      ∧ Valid a1
      ∧ a1.size = a.size + 1
      ∧ a1.capacity = (if a.size = a.capacity then 2 * a.capacity + 1 else a.capacity)
      ∧ a1.t_size = a.t_size
      ∧ a1.step = a.step := by
  obtain ⟨hm, hsz, hlt, hb, hcap, ht, hst⟩ := increase_capacity_spec a xs h hv
  obtain ⟨s1, hset, hm1, hs1, hc1, hl1, ht1, hst1⟩ :=
    set_T_item_end m (increase_capacity a) xs num hm (by omega)
  refine ⟨{ s1 with size := s1.size + 1 }, ?_, hm1, ?_, ?_, ?_, ?_, ?_⟩
  · simp only [carray_append, hc, hset]
  · constructor
    · simp only; omega
    · simp only; omega
  · simp only; omega
  · simp only; rw [hc1, hcap]
  · simp only; rw [ht1, ht]
  · simp only; rw [hst1, hst]

theorem carray_insert_spec {α : Type} (m : object_methods α) (a : carray_object α)
    (xs : List α) (i : Int) (num : PyObject) (h : Models a xs) (hv : Valid a)
    (hc : m.check_type num = .ok ()) :
    ∃ a1, carray_insert m a i num = .ok a1
      ∧ Models a1 (xs.take (max 0 (min (get_index xs.length i) xs.length)).toNat
          ++ m.as_c num :: xs.drop (max 0 (min (get_index xs.length i) xs.length)).toNat)
      ∧ Valid a1
      ∧ a1.size = a.size + 1
      ∧ a1.capacity = (if a.size = a.capacity then 2 * a.capacity + 1 else a.capacity)
      ∧ a1.t_size = a.t_size
      ∧ a1.step = a.step := by
  obtain ⟨hm, hsz, hlt, hb, hcap, ht, hst⟩ := increase_capacity_spec a xs h hv
  have hs := h.1
  obtain ⟨s1, hins, hm1, hs1, hc1, hl1, ht1, hst1⟩ :=
    insert_T_spec m (increase_capacity a) xs
      (max 0 (min (get_index xs.length i) xs.length)).toNat num hm (by omega) (by omega)
  refine ⟨s1, ?_, hm1, ?_, by omega, ?_, by omega, by omega⟩
  · have he := insert_index_eq a.size i
    simp only at he
    rw [hs] at he
    simp only [carray_insert, hc, hs, he, hins]
  · constructor <;> omega
  · rw [hc1, hcap]

theorem carray_pop_spec {α : Type} (m : object_methods α) (a : carray_object α)
    (xs : List α) (arg : Option Int) (h : Models a xs)
    (hr : 0 ≤ get_index xs.length (arg.getD ((xs.length : Int) - 1))
      ∧ get_index xs.length (arg.getD ((xs.length : Int) - 1)) < xs.length) :
    ∃ a1 x, carray_pop m a arg = .ok (a1, m.from_c x)
      ∧ xs[(get_index xs.length (arg.getD ((xs.length : Int) - 1))).toNat]? = some x
      ∧ Models a1 (xs.eraseIdx (get_index xs.length (arg.getD ((xs.length : Int) - 1))).toNat)
      ∧ a1.size = a.size - 1
      ∧ a1.capacity = (if a.size - 1 ≤ a.capacity / 2 then a.size - 1 else a.capacity)
      ∧ a1.items.length
          = (if a.size - 1 ≤ a.capacity / 2 then a.size - 1 else a.items.length)
      ∧ a1.t_size = a.t_size
      ∧ a1.step = a.step := by
  have hs := h.1
  have hp : (get_index xs.length (arg.getD ((xs.length : Int) - 1))).toNat < xs.length := by
    omega
  obtain ⟨s, hpop, hm, hs1, hc1, hl1, ht1, hst1⟩ := pop_T_spec m a xs _ h hp
  obtain ⟨hm2, hs2, hc2, hl2, ht2, hst2⟩ := reduce_capacity_spec s _ hm
  refine ⟨reduce_capacity s, _, ?_, List.getElem?_eq_getElem hp, hm2, by omega, ?_, ?_,
    by omega, by omega⟩
  · simp only [carray_pop, hs, hr, and_self, if_true, hpop]
  · rw [hc2, hs1, hc1]
  · rw [hl2, hs1, hc1, hl1]

theorem carray_pop_index_error {α : Type} (m : object_methods α) (a : carray_object α)
    (arg : Option Int)
    (hr : ¬ (0 ≤ get_index a.size (arg.getD ((a.size : Int) - 1))
      ∧ get_index a.size (arg.getD ((a.size : Int) - 1)) < a.size)) :
    carray_pop m a arg = .error (.PyErr .IndexError) := by
  simp only [carray_pop, hr, if_false]

/-! ## The `long` row -/

theorem check_long_ok_iff (v : PyObject) :
    check_long v = .ok () ↔ ∃ n : Int, v = .long n ∧ LONG_MIN ≤ n ∧ n ≤ LONG_MAX := by
  cases v with
  | long n =>
    have hmax : (PyObject_RichCompareBool (.long n) (.long LONG_MAX) .Py_GT ≠ 0) ↔ LONG_MAX < n := by
      simp [PyObject_RichCompareBool, PyObject.num, PyNum.lt]
    have hmin : (PyObject_RichCompareBool (.long n) (.long LONG_MIN) .Py_LT ≠ 0) ↔ n < LONG_MIN := by
      simp [PyObject_RichCompareBool, PyObject.num, PyNum.lt]
    unfold check_long
    simp only [hmax, hmin, PyLong_Check]
    constructor
    · intro h
      refine ⟨n, rfl, ?_⟩
      split at h
      · cases h
      · rename_i hn
        constructor <;> omega
    · rintro ⟨k, hk, h1, h2⟩
      cases hk
      rw [if_neg]
      intro hc
      rcases hc with hc | hc | hc
      · omega
      · omega
      · cases hc
  | float q => simp [check_long, PyLong_Check]
  | float_inf s => simp [check_long, PyLong_Check]
  | float_nan => simp [check_long, PyLong_Check]
  | other k => simp [check_long, PyLong_Check]

theorem check_long_error (v : PyObject) (h : check_long v ≠ .ok ()) :
    check_long v = .error .TypeError := by
  unfold check_long at h ⊢
  split
  · rfl
  · rename_i hn
    rw [if_neg hn] at h
    exact absurd rfl h

theorem long_round_trip (n : Int) (h : LONG_MIN ≤ n ∧ n ≤ LONG_MAX) :
    type_methods_long.from_c (type_methods_long.as_c (.long n)) = .long n := by
  simp [type_methods_long, PyLong_AsLong, PyLong_FromLong, h]

/-! ## Reading and construction -/

theorem get_T_item_spec {α : Type} (m : object_methods α) (a : carray_object α) (xs : List α)
    (p : Nat) (x : α) (h : Models a xs) (hx : xs[p]? = some x) :
    get_T_item m a p = .ok (m.from_c x) := by
  obtain ⟨rest, hi, _⟩ := h.items_eq
  have hp : p < xs.length := by
    rcases Nat.lt_or_ge p xs.length with hlt | hge
    · exact hlt
    · rw [List.getElem?_eq_none hge] at hx
      cases hx
  have hg : a.items[p]? = some (some x) := by
    rw [hi, List.getElem?_append_left (by simpa using hp), List.getElem?_map, hx]
    rfl
  simp only [get_T_item, cell_read, hg]

theorem get_item_spec {α : Type} (m : object_methods α) (a : carray_object α) (xs : List α)
    (i : Int) (x : α) (h : Models a xs) (hi : 0 ≤ i) (hx : xs[i.toNat]? = some x) :
    get_item m a i = .ok (m.from_c x) := by
  have hp : i.toNat < xs.length := by
    rcases Nat.lt_or_ge i.toNat xs.length with hlt | hge
    · exact hlt
    · rw [List.getElem?_eq_none hge] at hx
      cases hx
  have hs := h.1
  have hc : 0 ≤ i ∧ i < (a.size : Int) := by omega
  simp only [get_item, hc, and_self, if_true]
  exact get_T_item_spec m a xs _ x h hx

/-- The filling loop on valid elements: every remaining slot is written. -/
theorem carray_init_loop_ok {α : Type} (m : object_methods α) :
    ∀ (rest done : List PyObject) (self : carray_object α),
      self.items = (done.map m.as_c).map some ++ List.replicate rest.length none →
      self.size = done.length + rest.length →
      (∀ x ∈ rest, m.check_type x = .ok ()) →
      carray_init_loop m self done.length rest
        = .ok { self with items := ((done ++ rest).map m.as_c).map some } := by
  intro rest
  induction rest with
  | nil =>
    intro done self hi _ _
    simp only [carray_init_loop]
    congr 1
    cases self
    simp only at hi
    simp [hi]
  | cons x rest ih =>
    intro done self hi hs hv
    have hc : m.check_type x = .ok () := hv x (List.mem_cons_self _ _)
    have hb : (0 : Int) ≤ (done.length : Int) ∧ (done.length : Int) < (self.size : Int) := by
      rw [hs]
      simp only [List.length_cons]
      omega
    have hA : ((done.map m.as_c).map some).length = done.length := by simp
    have hw := cell_write_mid ((done.map m.as_c).map some) (List.replicate rest.length none)
      none (m.as_c x)
    rw [hA] at hw
    have hi1 : self.items = (done.map m.as_c).map some
        ++ none :: List.replicate rest.length none := by
      rw [hi]
      rfl
    have hset : set_item m self (done.length : Int) x = .ok { self with
        items := (done.map m.as_c).map some ++ some (m.as_c x) :: List.replicate rest.length none } := by
      simp only [set_item, hb, and_self, if_true, hc, set_T_item, Int.toNat_ofNat, hi1, hw]
    simp only [carray_init_loop, hset]
    have h1 := ih (done ++ [x]) { self with
        items := (done.map m.as_c).map some ++ some (m.as_c x) :: List.replicate rest.length none }
      (by simp) (by simp only [List.length_append, List.length_cons, List.length_nil]
                    rw [hs]; simp only [List.length_cons]; omega)
      (fun y hy => hv y (List.mem_cons_of_mem _ hy))
    simp only [List.length_append, List.length_cons, List.length_nil, Nat.zero_add] at h1
    rw [h1]
    simp

/-- The filling loop stops at the first element that fails validation. -/
theorem carray_init_loop_fail {α : Type} (m : object_methods α) (x : PyObject)
    (post : List PyObject) (e : PyExc) (hx : m.check_type x = .error e) :
    ∀ (pre done : List PyObject) (self : carray_object α),
      self.items = (done.map m.as_c).map some
        ++ List.replicate (pre ++ x :: post).length none →
      self.size = done.length + (pre ++ x :: post).length →
      (∀ y ∈ pre, m.check_type y = .ok ()) →
      carray_init_loop m self done.length (pre ++ x :: post) = .error (.PyErr e) := by
  intro pre
  induction pre with
  | nil =>
    intro done self _ hs _
    have hb : (0 : Int) ≤ (done.length : Int) ∧ (done.length : Int) < (self.size : Int) := by
      rw [hs]
      simp only [List.nil_append, List.length_cons]
      omega
    simp only [List.nil_append, carray_init_loop, set_item, hb, and_self, if_true, hx]
  | cons y pre ih =>
    intro done self hi hs hv
    have hc : m.check_type y = .ok () := hv y (List.mem_cons_self _ _)
    have hb : (0 : Int) ≤ (done.length : Int) ∧ (done.length : Int) < (self.size : Int) := by
      rw [hs]
      simp only [List.cons_append, List.length_cons]
      omega
    have hA : ((done.map m.as_c).map some).length = done.length := by simp
    have hw := cell_write_mid ((done.map m.as_c).map some)
      (List.replicate (pre ++ x :: post).length none) none (m.as_c y)
    rw [hA] at hw
    have hi1 : self.items = (done.map m.as_c).map some
        ++ none :: List.replicate (pre ++ x :: post).length none := by
      rw [hi]
      rfl
    have hset : set_item m self (done.length : Int) y = .ok { self with
        items := (done.map m.as_c).map some ++ some (m.as_c y) :: List.replicate (pre ++ x :: post).length none } := by
      simp only [set_item, hb, and_self, if_true, hc, set_T_item, Int.toNat_ofNat, hi1, hw]
    simp only [List.cons_append, carray_init_loop, hset]
    have h1 := ih (done ++ [y]) { self with
        items := (done.map m.as_c).map some ++ some (m.as_c y) :: List.replicate (pre ++ x :: post).length none }
      (by simp) (by simp only [List.length_append, List.length_cons, List.length_nil]
                    rw [hs]; simp only [List.cons_append, List.length_cons, List.length_append]
                    omega)
      (fun z hz => hv z (List.mem_cons_of_mem _ hz))
    simp only [List.length_append, List.length_cons, List.length_nil, Nat.zero_add] at h1
    simp only [List.length_append, List.length_cons] at h1 ⊢
    exact h1

/-- Either every element passes, or the list splits at its first failing element. -/
theorem first_invalid_split {α : Type} (m : object_methods α) (s : List PyObject) :
    (∀ x ∈ s, m.check_type x = .ok ())
      ∨ ∃ pre x post e, s = pre ++ x :: post ∧ (∀ y ∈ pre, m.check_type y = .ok ())
          ∧ m.check_type x = .error e := by
  induction s with
  | nil => left; simp
  | cons a s ih =>
    cases hc : m.check_type a with
    | error e => exact Or.inr ⟨[], a, s, e, rfl, by simp, hc⟩
    | ok u =>
      rcases ih with hall | ⟨pre, x, post, e, hs, hpre, hx⟩
      · left
        intro y hy
        rcases List.mem_cons.mp hy with rfl | hy
        · exact hc
        · exact hall y hy
      · right
        refine ⟨a :: pre, x, post, e, by rw [hs]; rfl, ?_, hx⟩
        intro y hy
        rcases List.mem_cons.mp hy with rfl | hy
        · exact hc
        · exact hpre y hy

theorem carray_init_T_ok {α : Type} (m : object_methods α) (s : List PyObject)
    (hv : ∀ x ∈ s, m.check_type x = .ok ()) :
    carray_init_T m carray_new (some (.sequence s))
      = .ok { t_size := m.t_size, step := 0, size := s.length, capacity := s.length,
              items := (s.map m.as_c).map some } := by
  have hne : PySequence_Size (.sequence s) ≠ -1 := by
    simp only [PySequence_Size]
    omega
  simp only [carray_init_T, hne, if_false]
  have h := carray_init_loop_ok m s []
    (carray_object.mk m.t_size 0 s.length s.length (PyMem_Malloc s.length))
    (by simp [PyMem_Malloc]) (by simp) hv
  simp only [List.length_nil, List.nil_append] at h
  simp only [carray_new]
  exact h

theorem carray_init_T_fail {α : Type} (m : object_methods α) (pre post : List PyObject)
    (x : PyObject) (e : PyExc) (hpre : ∀ y ∈ pre, m.check_type y = .ok ())
    (hx : m.check_type x = .error e) :
    carray_init_T m carray_new (some (.sequence (pre ++ x :: post))) = .error (.PyErr e) := by
  have hne : PySequence_Size (.sequence (pre ++ x :: post)) ≠ -1 := by
    simp only [PySequence_Size]
    omega
  simp only [carray_init_T, hne, if_false]
  have h := carray_init_loop_fail m x post e hx pre []
    (carray_object.mk m.t_size 0 (pre ++ x :: post).length (pre ++ x :: post).length
      (PyMem_Malloc (pre ++ x :: post).length))
    (by simp [PyMem_Malloc]) (by simp) hpre
  simp only [List.length_nil] at h
  simp only [carray_new]
  exact h

/-! ## Length and capacity after a successful call -/

theorem set_T_item_fields {α : Type} {m : object_methods α} {s s1 : carray_object α}
    {i : Nat} {v : PyObject} (h : set_T_item m s i v = .ok s1) :
    s1.size = s.size ∧ s1.capacity = s.capacity := by
  unfold set_T_item at h
  split at h
  · cases h
  · cases h
    exact ⟨rfl, rfl⟩

theorem set_item_fields {α : Type} {m : object_methods α} {s s1 : carray_object α}
    {i : Int} {v : PyObject} (h : set_item m s i v = .ok s1) :
    s1.size = s.size ∧ s1.capacity = s.capacity := by
  unfold set_item at h
  split at h
  · split at h
    · cases h
    · exact set_T_item_fields h
  · cases h

theorem increase_capacity_fields {α : Type} (a : carray_object α) :
    (increase_capacity a).size = a.size
      ∧ (increase_capacity a).capacity
          = (if a.size ≥ a.capacity then a.capacity * 2 + 1 else a.capacity) := by
  unfold increase_capacity
  split <;> exact ⟨rfl, rfl⟩

theorem reduce_capacity_fields {α : Type} (a : carray_object α) :
    (reduce_capacity a).size = a.size
      ∧ (reduce_capacity a).capacity
          = (if a.size ≤ a.capacity / 2 then a.size else a.capacity) := by
  unfold reduce_capacity
  split <;> exact ⟨rfl, rfl⟩

theorem carray_append_fields {α : Type} {m : object_methods α} {a a1 : carray_object α}
    {v : PyObject} (h : carray_append m a v = .ok a1) :
    a1.size = a.size + 1
      ∧ a1.capacity = (if a.size ≥ a.capacity then a.capacity * 2 + 1 else a.capacity) := by
  unfold carray_append at h
  split at h
  · cases h
  · simp only at h
    split at h
    · cases h
    · rename_i s1 hs
      cases h
      obtain ⟨h1, h2⟩ := set_T_item_fields hs
      obtain ⟨h3, h4⟩ := increase_capacity_fields a
      simp only
      rw [h1, h2, h3, h4]
      exact ⟨rfl, rfl⟩

theorem insert_T_fields {α : Type} {m : object_methods α} {s s1 : carray_object α}
    {p : Nat} {v : PyObject} (h : insert_T m s p v = .ok s1) :
    s1.size = s.size + 1 ∧ s1.capacity = s.capacity := by
  unfold insert_T at h
  split at h
  · cases h
  · split at h
    · cases h
    · rename_i s2 hs
      cases h
      obtain ⟨h1, h2⟩ := set_T_item_fields hs
      simp only at h1 h2 ⊢
      rw [h1, h2]
      exact ⟨rfl, rfl⟩

theorem carray_insert_fields {α : Type} {m : object_methods α} {a a1 : carray_object α}
    {i : Int} {v : PyObject} (h : carray_insert m a i v = .ok a1) :
    a1.size = a.size + 1
      ∧ a1.capacity = (if a.size ≥ a.capacity then a.capacity * 2 + 1 else a.capacity) := by
  unfold carray_insert at h
  split at h
  · cases h
  · obtain ⟨h1, h2⟩ := insert_T_fields h
    obtain ⟨h3, h4⟩ := increase_capacity_fields a
    rw [h1, h2, h3, h4]
    exact ⟨rfl, rfl⟩

theorem pop_T_fields {α : Type} {m : object_methods α} {s s1 : carray_object α}
    {p : Nat} {v : PyObject} (h : pop_T m s p = .ok (s1, v)) :
    s1.size = s.size - 1 ∧ s1.capacity = s.capacity := by
  unfold pop_T at h
  split at h
  · cases h
  · split at h
    · cases h
    · cases h
      exact ⟨rfl, rfl⟩

theorem carray_pop_fields {α : Type} {m : object_methods α} {a a1 : carray_object α}
    {arg : Option Int} {v : PyObject} (h : carray_pop m a arg = .ok (a1, v)) :
    a1.size = a.size - 1
      ∧ a1.capacity = (if a.size - 1 ≤ a.capacity / 2 then a.size - 1 else a.capacity) := by
  unfold carray_pop at h
  simp only at h
  split at h
  · split at h
    · cases h
    · rename_i s num hs
      cases h
      obtain ⟨h1, h2⟩ := pop_T_fields hs
      obtain ⟨h3, h4⟩ := reduce_capacity_fields s
      rw [h3, h4, h1, h2]
      exact ⟨rfl, rfl⟩
  · cases h

theorem carray_remove_fields {α : Type} {m : object_methods α} {a a1 : carray_object α}
    {v : PyObject} (h : carray_remove m a v = .ok a1) :
    a1 = a ∨ (a1.size = a.size - 1
      ∧ a1.capacity = (if a.size - 1 ≤ a.capacity / 2 then a.size - 1 else a.capacity)) := by
  unfold carray_remove at h
  split at h
  · cases h
    exact Or.inl rfl
  · split at h
    · cases h
    · split at h
      · split at h
        · cases h
        · rename_i s num hs
          cases h
          obtain ⟨h1, h2⟩ := pop_T_fields hs
          obtain ⟨h3, h4⟩ := reduce_capacity_fields s
          rw [h3, h4, h1, h2]
          exact Or.inr ⟨rfl, rfl⟩
      · cases h
        exact Or.inl rfl

theorem carray_init_loop_fields {α : Type} (m : object_methods α) :
    ∀ (xs : List PyObject) (s s1 : carray_object α) (i : Nat),
      carray_init_loop m s i xs = .ok s1 →
      s1.size = s.size ∧ s1.capacity = s.capacity := by
  intro xs
  induction xs with
  | nil =>
    intro s s1 i h
    simp only [carray_init_loop] at h
    cases h
    exact ⟨rfl, rfl⟩
  | cons x xs ih =>
    intro s s1 i h
    simp only [carray_init_loop] at h
    split at h
    · cases h
    · rename_i s2 hs
      obtain ⟨h1, h2⟩ := set_item_fields hs
      obtain ⟨h3, h4⟩ := ih s2 s1 (i + 1) h
      exact ⟨h3.trans h1, h4.trans h2⟩

theorem carray_init_T_fields {α : Type} {m : object_methods α} {a : carray_object α}
    {iterable : Option PyIterable} (h : carray_init_T m carray_new iterable = .ok a) :
    a.size = a.capacity := by
  unfold carray_init_T at h
  simp only at h
  split at h
  · cases h
    rfl
  · split at h
    · cases h
    · split at h
      · cases h
      · obtain ⟨h1, h2⟩ := carray_init_loop_fields m _ _ _ _ h
        rw [h1, h2]

theorem carray_reversed_fields {α : Type} {m : object_methods α} {a r : carray_object α}
    (h : carray_reversed m a = .ok r) : r.size = a.size ∧ r.capacity = a.capacity := by
  unfold carray_reversed at h
  split at h
  · cases h
  · cases h
    exact ⟨rfl, rfl⟩

/-! ## The search loop of remove -/

/-- The search loop of `carray_remove` returns the first matching index. -/
theorem carray_remove_scan_found {α : Type} (m : object_methods α) (a : carray_object α)
    (xs : List α) (num : PyObject) (k : Nat) (x : α) (h : Models a xs)
    (hk : xs[k]? = some x)
    (hx : PyObject_RichCompareBool num (m.from_c x) .Py_EQ ≠ 0)
    (hfirst : ∀ (j : Nat) (y : α), j < k → xs[j]? = some y →
      PyObject_RichCompareBool num (m.from_c y) .Py_EQ = 0) :
    ∀ (fuel i : Nat), i ≤ k → k < i + fuel →
      carray_remove_scan m a num fuel i = .ok (k : Int) := by
  intro fuel
  induction fuel with
  | zero =>
    intro i h1 h2
    omega
  | succ fuel ih =>
    intro i h1 h2
    have hkl : k < xs.length := by
      rcases Nat.lt_or_ge k xs.length with hlt | hge
      · exact hlt
      · rw [List.getElem?_eq_none hge] at hk
        cases hk
    rcases Nat.eq_or_lt_of_le h1 with he | hlt
    · subst he
      simp only [carray_remove_scan, get_T_item_spec m a xs i x h hk]
      rw [if_pos hx]
    · have hil : i < xs.length := by omega
      have hy : xs[i]? = some xs[i] := List.getElem?_eq_getElem hil
      have h0 := hfirst i xs[i] hlt hy
      simp only [carray_remove_scan, get_T_item_spec m a xs i xs[i] h hy, h0, ne_eq,
        not_true_eq_false, if_false]
      exact ih (i + 1) (by omega) (by omega)

/-- The search loop of `carray_remove` returns -1 when nothing matches. -/
theorem carray_remove_scan_absent {α : Type} (m : object_methods α) (a : carray_object α)
    (xs : List α) (num : PyObject) (h : Models a xs)
    (hnone : ∀ (j : Nat) (y : α), xs[j]? = some y →
      PyObject_RichCompareBool num (m.from_c y) .Py_EQ = 0) :
    ∀ (fuel i : Nat), i + fuel = xs.length →
      carray_remove_scan m a num fuel i = .ok (-1) := by
  intro fuel
  induction fuel with
  | zero =>
    intro i _
    simp only [carray_remove_scan]
  | succ fuel ih =>
    intro i h1
    have hil : i < xs.length := by omega
    have hy : xs[i]? = some xs[i] := List.getElem?_eq_getElem hil
    have h0 := hnone i xs[i] hy
    simp only [carray_remove_scan, get_T_item_spec m a xs i xs[i] h hy, h0, ne_eq,
      not_true_eq_false, if_false]
    exact ih (i + 1) (by omega)

/-! ## The reversed copy -/

theorem cell_read_models {α : Type} (a : carray_object α) (xs : List α) (p : Nat)
    (h : Models a xs) (hp : p < xs.length) : cell_read a.items p = .ok xs[p] := by
  obtain ⟨rest, hi, _⟩ := h.items_eq
  have hg : a.items[p]? = some (some xs[p]) := by
    rw [hi, List.getElem?_append_left (by simpa using hp), List.getElem?_map,
      List.getElem?_eq_getElem hp]
    rfl
  simp only [cell_read, hg]

/-- The copy loop of `REVERSED`: started at `i`, it fills the slots `i .. size/2 - 1`
and their mirror images, and leaves every other slot as it was. -/
theorem reversed_loop_spec {α : Type} (a : carray_object α) (xs : List α)
    (h : Models a xs) :
    ∀ (fuel i : Nat) (dst : List (Option α)), i + fuel = xs.length / 2 →
      dst.length = xs.length →
      ∃ dst1, reversed_loop a.items xs.length fuel i dst = .ok dst1
        ∧ dst1.length = xs.length
        ∧ ∀ j, j < xs.length →
            dst1[j]? = (if (i ≤ j ∧ j < xs.length / 2)
                ∨ (xs.length - xs.length / 2 ≤ j ∧ j < xs.length - i)
              then some (xs[xs.length - 1 - j]?) else dst[j]?) := by
  intro fuel
  induction fuel with
  | zero =>
    intro i dst hi hl
    refine ⟨dst, rfl, hl, ?_⟩
    intro j hj
    rw [if_neg]
    omega
  | succ fuel ih =>
    intro i dst hi hl
    have h1 : xs.length - i - 1 < xs.length := by omega
    have h2 : i < xs.length := by omega
    have hw1 : cell_write dst i xs[xs.length - i - 1]
        = .ok (dst.set i (some xs[xs.length - i - 1])) := by
      simp only [cell_write, hl, h2, if_true]
    have hw2 : cell_write (dst.set i (some xs[xs.length - i - 1])) (xs.length - i - 1) xs[i]
        = .ok ((dst.set i (some xs[xs.length - i - 1])).set (xs.length - i - 1) (some xs[i])) := by
      simp only [cell_write, List.length_set, hl, h1, if_true]
    obtain ⟨dst1, hrun, hlen, hget⟩ := ih (i + 1)
      ((dst.set i (some xs[xs.length - i - 1])).set (xs.length - i - 1) (some xs[i]))
      (by omega) (by simp only [List.length_set, hl])
    refine ⟨dst1, ?_, hlen, ?_⟩
    · simp only [reversed_loop, cell_read_models a xs _ h h1, cell_read_models a xs _ h h2,
        hw1, hw2, hrun]
    · intro j hj
      rw [hget j hj]
      by_cases hji : j = i
      · subst hji
        rw [if_neg (by omega), if_pos (by omega), List.getElem?_set_ne (by omega),
          List.getElem?_set_self (by omega)]
        have : xs.length - 1 - j = xs.length - j - 1 := by omega
        rw [this, List.getElem?_eq_getElem h1]
      · by_cases hjm : j = xs.length - i - 1
        · subst hjm
          rw [if_neg (by omega), if_pos (by omega),
            List.getElem?_set_self (by simp only [List.length_set]; omega)]
          have : xs.length - 1 - (xs.length - i - 1) = i := by omega
          rw [this, List.getElem?_eq_getElem h2]
        · rw [List.getElem?_set_ne (by omega), List.getElem?_set_ne (by omega)]
          by_cases hc : (i ≤ j ∧ j < xs.length / 2)
              ∨ (xs.length - xs.length / 2 ≤ j ∧ j < xs.length - i)
          · rw [if_pos hc, if_pos (by omega)]
          · rw [if_neg hc, if_neg (by omega)]

theorem reversed_T_spec {α : Type} (m : object_methods α) (a : carray_object α)
    (xs : List α) (h : Models a xs) :
    reversed_T m carray_new a a.size
      = .ok { t_size := m.t_size, step := 0, size := 0, capacity := 0,
              items := xs.reverse.map some } := by
  have hs := h.1
  unfold reversed_T
  simp only [carray_init_T, carray_new]
  by_cases h0 : a.size = 0
  · have : xs = [] := List.length_eq_zero.mp (by omega)
    subst this
    simp [h0]
  · rw [if_neg h0, hs]
    have hmid : xs.length / 2 < xs.length := by omega
    have hw : cell_write (PyMem_Malloc xs.length) (xs.length / 2) xs[xs.length / 2]
        = .ok ((List.replicate xs.length none).set (xs.length / 2) (some xs[xs.length / 2])) := by
      simp only [cell_write, PyMem_Malloc, List.length_replicate, hmid, if_true]
    obtain ⟨dst1, hrun, hlen, hget⟩ := reversed_loop_spec a xs h (xs.length / 2) 0
      ((List.replicate xs.length none).set (xs.length / 2) (some xs[xs.length / 2]))
      (by omega) (by simp)
    simp only [cell_read_models a xs _ h hmid, hw, hrun]
    congr 2
    apply List.ext_getElem?
    intro j
    rcases Nat.lt_or_ge j xs.length with hj | hj
    · rw [hget j hj, List.getElem?_map, List.getElem?_reverse hj]
      by_cases hc : (0 ≤ j ∧ j < xs.length / 2)
          ∨ (xs.length - xs.length / 2 ≤ j ∧ j < xs.length - 0)
      · rw [if_pos hc]
        have h1 : xs.length - 1 - j < xs.length := by omega
        rw [List.getElem?_eq_getElem h1]
        rfl
      · rw [if_neg hc]
        have hje : j = xs.length / 2 := by omega
        have h1 : xs.length - 1 - j < xs.length := by omega
        have h2 : xs.length - 1 - j = xs.length / 2 := by omega
        rw [List.getElem?_eq_getElem h1]
        subst hje
        rw [List.getElem?_set_self (by simpa using hmid)]
        simp only [h2, Option.map_some']
    · rw [List.getElem?_eq_none (by omega), List.getElem?_eq_none (by simpa using hj)]

theorem carray_reversed_spec {α : Type} (m : object_methods α) (a : carray_object α)
    (xs : List α) (h : Models a xs) :
    carray_reversed m a
      = .ok { t_size := m.t_size, step := 0, size := a.size, capacity := a.capacity,
              items := xs.reverse.map some } := by
  simp only [carray_reversed, reversed_T_spec m a xs h]

/-! ## Element access, repeated append and removal by value -/

theorem getitem_nonneg {α : Type} (m : object_methods α) (a : carray_object α) (i : Int)
    (hi : 0 ≤ i) : PySequence_GetItem m a i = get_item m a i := by
  have : ¬ i < 0 := by omega
  simp only [PySequence_GetItem, this, if_false]

theorem getitem_neg {α : Type} (m : object_methods α) (a : carray_object α) (i : Int)
    (hi : i < 0) : PySequence_GetItem m a i = get_item m a (i + a.size) := by
  simp only [PySequence_GetItem, hi, if_true, get_len]

theorem getitem_spec {α : Type} (m : object_methods α) (a : carray_object α) (xs : List α)
    (k : Nat) (x : α) (h : Models a xs) (hx : xs[k]? = some x) :
    PySequence_GetItem m a (k : Int) = .ok (m.from_c x) := by
  rw [getitem_nonneg m a _ (Int.ofNat_nonneg k)]
  exact get_item_spec m a xs _ x h (Int.ofNat_nonneg k) (by simpa using hx)

theorem append_all_spec {α : Type} (m : object_methods α) :
    ∀ (vs : List PyObject) (a : carray_object α) (xs : List α), Models a xs → Valid a →
      (∀ v ∈ vs, m.check_type v = .ok ()) →
      ∃ a1, append_all m a vs = .ok a1 ∧ Models a1 (xs ++ vs.map m.as_c) ∧ Valid a1
        ∧ a1.size = a.size + vs.length := by
  intro vs
  induction vs with
  | nil =>
    intro a xs h hv _
    exact ⟨a, rfl, by simpa using h, hv, rfl⟩
  | cons v vs ih =>
    intro a xs h hv hc
    obtain ⟨a1, h1, hm1, hv1, hs1, _⟩ :=
      carray_append_spec m a xs v h hv (hc v (List.mem_cons_self _ _))
    obtain ⟨a2, h2, hm2, hv2, hs2⟩ := ih a1 _ hm1 hv1 (fun w hw => hc w (List.mem_cons_of_mem _ hw))
    refine ⟨a2, ?_, ?_, hv2, ?_⟩
    · simp only [append_all, h1, h2]
    · simpa using hm2
    · rw [hs2, hs1]
      simp only [List.length_cons]
      omega

theorem append_all_append {α : Type} (m : object_methods α) :
    ∀ (pre : List PyObject) (a b : carray_object α) (post : List PyObject),
      append_all m a pre = .ok b → append_all m a (pre ++ post) = append_all m b post := by
  intro pre
  induction pre with
  | nil =>
    intro a b post h
    simp only [append_all] at h
    cases h
    rfl
  | cons v pre ih =>
    intro a b post h
    simp only [append_all] at h
    simp only [List.cons_append, append_all]
    split at h
    · cases h
    · rename_i a1 h1
      exact ih a1 b post h

theorem carray_new_models {α : Type} (t : Nat) :
    Models ({ (carray_new : carray_object α) with t_size := t }) [] ∧
      Valid ({ (carray_new : carray_object α) with t_size := t }) := by
  refine ⟨⟨rfl, rfl⟩, ?_, ?_⟩ <;> simp [carray_new]

/-- Either no element satisfies `P`, or the list splits at the first one that does. -/
theorem first_match_split {α : Type} (P : α → Prop) (xs : List α) :
    (∀ y ∈ xs, ¬ P y)
      ∨ ∃ pre x post, xs = pre ++ x :: post ∧ (∀ y ∈ pre, ¬ P y) ∧ P x := by
  induction xs with
  | nil => left; simp
  | cons a xs ih =>
    by_cases hc : P a
    · exact Or.inr ⟨[], a, xs, rfl, by simp, hc⟩
    · rcases ih with hall | ⟨pre, x, post, hs, hpre, hx⟩
      · left
        intro y hy
        rcases List.mem_cons.mp hy with rfl | hy
        · exact hc
        · exact hall y hy
      · right
        refine ⟨a :: pre, x, post, by rw [hs]; rfl, ?_, hx⟩
        intro y hy
        rcases List.mem_cons.mp hy with rfl | hy
        · exact hc
        · exact hpre y hy

theorem carray_remove_found {α : Type} (m : object_methods α) (a : carray_object α)
    (xs : List α) (num : PyObject) (k : Nat) (x : α) (h : Models a xs)
    (hnum : PyFloat_Check num = true ∨ PyLong_Check num = true)
    (hk : xs[k]? = some x)
    (hx : PyObject_RichCompareBool num (m.from_c x) .Py_EQ ≠ 0)
    (hfirst : ∀ (j : Nat) (y : α), j < k → xs[j]? = some y →
      PyObject_RichCompareBool num (m.from_c y) .Py_EQ = 0) :
    ∃ a1, carray_remove m a num = .ok a1
      ∧ carray_pop m a (some (k : Int)) = .ok (a1, m.from_c x)
      ∧ Models a1 (xs.eraseIdx k) := by
  have hkl : k < xs.length := by
    rcases Nat.lt_or_ge k xs.length with hlt | hge
    · exact hlt
    · rw [List.getElem?_eq_none hge] at hk
      cases hk
  have hs := h.1
  have hscan := carray_remove_scan_found m a xs num k x h hk hx hfirst a.size 0
    (Nat.zero_le _) (by omega)
  obtain ⟨s, hpop, hm, _⟩ := pop_T_spec m a xs k h hkl
  have hxe : xs[k] = x := by
    rw [List.getElem?_eq_getElem hkl] at hk
    exact Option.some.inj hk
  rw [hxe] at hpop
  obtain ⟨hm2, _⟩ := reduce_capacity_spec s _ hm
  have hguard : ¬ (PyFloat_Check num = false ∧ PyLong_Check num = false) := by
    rcases hnum with h1 | h1 <;> simp [h1]
  have hne : ((k : Int) ≠ -1) := by omega
  have hgi : get_index a.size (k : Int) = (k : Int) := by
    simp only [get_index]
    rw [if_neg (by omega)]
  have hb : (0 : Int) ≤ (k : Int) ∧ (k : Int) < (a.size : Int) := by omega
  refine ⟨reduce_capacity s, ?_, ?_, hm2⟩
  · simp only [carray_remove, hguard, if_false, hscan, hne, ne_eq, not_false_eq_true, if_true,
      Int.toNat_ofNat, hpop]
  · simp only [carray_pop, Option.getD_some, hgi, hb, and_self, if_true, Int.toNat_ofNat, hpop]

theorem carray_remove_absent {α : Type} (m : object_methods α) (a : carray_object α)
    (xs : List α) (num : PyObject) (h : Models a xs)
    (hnone : ∀ (j : Nat) (y : α), xs[j]? = some y →
      PyObject_RichCompareBool num (m.from_c y) .Py_EQ = 0) :
    carray_remove m a num = .ok a := by
  have hscan := carray_remove_scan_absent m a xs num h hnone a.size 0 (by rw [h.1]; omega)
  unfold carray_remove
  split
  · rfl
  · simp only [hscan, ne_eq, not_true_eq_false, if_false]

theorem carray_remove_not_number {α : Type} (m : object_methods α) (a : carray_object α)
    (num : PyObject) (hnum : PyFloat_Check num = false ∧ PyLong_Check num = false) :
    carray_remove m a num = .ok a := by
  simp only [carray_remove, hnum, and_self, if_true]

/-! ## Insert followed by pop -/

/-- On an array that satisfies the invariants of the data model, an insert at
`0 ≤ i ≤ L` followed by a pop at `i` returns the stored value and restores the
elements. -/
theorem insert_then_pop_valid {α : Type} (m : object_methods α) (a : carray_object α)
    (xs : List α) (i : Int) (v : PyObject) (h : Models a xs) (hv : Valid a)
    (hc : m.check_type v = .ok ()) (h0 : 0 ≤ i) (h1 : i ≤ xs.length) :
    ∃ a1 a2, carray_insert m a i v = .ok a1
      ∧ carray_pop m a1 (some i) = .ok (a2, m.from_c (m.as_c v))
      ∧ Models a2 xs
      ∧ Valid a2
      ∧ a2.size = a.size
      ∧ a2.capacity = (if a.size ≤ a.capacity / 2 then a.size else a.capacity) := by
  have hs := h.1
  have hgi : get_index xs.length i = i := by
    simp only [get_index]
    rw [if_neg (by omega)]
  have hp : (max 0 (min (get_index xs.length i) xs.length)).toNat = i.toNat := by
    rw [hgi]
    omega
  obtain ⟨a1, hins, hm1, hv1, hs1, hc1, _⟩ := carray_insert_spec m a xs i v h hv hc
  rw [hp] at hm1
  have hlen : (xs.take i.toNat ++ m.as_c v :: xs.drop i.toNat).length = xs.length + 1 := by
    simp only [List.length_append, List.length_take, List.length_cons, List.length_drop]
    omega
  have hgi1 : get_index (xs.take i.toNat ++ m.as_c v :: xs.drop i.toNat).length
      ((some i).getD (((xs.take i.toNat ++ m.as_c v :: xs.drop i.toNat).length : Int) - 1))
      = i := by
    simp only [Option.getD_some, get_index]
    rw [if_neg (by omega)]
  obtain ⟨a2, x, hpop, hx, hm2, hs2, hc2, hl2, _⟩ :=
    carray_pop_spec m a1 _ (some i) hm1 (by rw [hgi1, hlen]; omega)
  rw [hgi1] at hx hm2
  have hti : (xs.take i.toNat).length = i.toNat := by
    simp only [List.length_take]
    omega
  have hxe : x = m.as_c v := by
    rw [List.getElem?_append_right (by omega), hti] at hx
    simpa using hx.symm
  have he : (xs.take i.toNat ++ m.as_c v :: xs.drop i.toNat).eraseIdx i.toNat = xs := by
    rw [List.eraseIdx_append_of_length_le (by omega), hti]
    simp
  rw [he] at hm2
  rw [hxe] at hpop
  obtain ⟨hva, hvb⟩ := hv1
  obtain ⟨hv0, hv2⟩ := hv
  rw [hs1, hc1] at hc2 hl2
  rw [hc1] at hva hvb
  have hcap : a2.capacity = (if a.size ≤ a.capacity / 2 then a.size else a.capacity) := by
    rw [hc2]
    split_ifs <;> omega
  refine ⟨a1, a2, hins, hpop, hm2, ?_, by omega, hcap⟩
  constructor
  · rw [hcap]
    split_ifs <;> omega
  · rw [hcap, hl2]
    by_cases he : a.size = a.capacity
    · simp only [he, if_true] at hvb ⊢
      split_ifs <;> omega
    · simp only [he, if_false] at hvb ⊢
      split_ifs <;> omega

/-- Equality of two host `int` values as `PyObject_RichCompareBool` decides it. -/
theorem long_compare_eq (n x : Int) :
    PyObject_RichCompareBool (.long n) (type_methods_long.from_c x) .Py_EQ ≠ 0 ↔ n = x := by
  simp [PyObject_RichCompareBool, PyObject.num, PyNum.eq, type_methods_long, PyLong_FromLong]

/-- The reversed copy of an array holding `xs` holds `xs` reversed and keeps
the length and capacity fields of the source. -/
theorem carray_reversed_models {α : Type} (m : object_methods α) (a : carray_object α)
    (xs : List α) (h : Models a xs) :
    ∃ r, carray_reversed m a = .ok r
      ∧ r.size = a.size
      ∧ r.capacity = a.capacity
      ∧ r.t_size = m.t_size
      ∧ Models r xs.reverse := by
  have hr := carray_reversed_spec m a xs h
  have hmr : Models (carray_object.mk m.t_size 0 a.size a.capacity (xs.reverse.map some))
      xs.reverse := Models.of_items [] (by simp [h.1]) (by simp)
  exact ⟨_, hr, rfl, rfl, rfl, hmr⟩

/-! ## Reachable states -/

/-- A successful write inside the held sequence replaces one element. -/
theorem set_T_item_inside {α : Type} (m : object_methods α) (a : carray_object α)
    (xs : List α) (i : Nat) (v : PyObject) (h : Models a xs) (hi : i < xs.length) :
    ∃ a1, set_T_item m a i v = .ok a1
      ∧ Models a1 (xs.set i (m.as_c v))
      ∧ a1.size = a.size
      ∧ a1.capacity = a.capacity
      ∧ a1.items.length = a.items.length := by
  obtain ⟨rest, hit, hlen⟩ := h.items_eq
  have hl : i < a.items.length := by omega
  refine ⟨{ a with items := a.items.set i (some (m.as_c v)) }, ?_, ?_, rfl, rfl, ?_⟩
  · simp only [set_T_item, cell_write, hl, if_true]
  · refine Models.of_items rest ?_ ?_
    · simp only [List.length_set]
      exact h.1
    · simp only [hit]
      rw [List.set_append_left _ _ (by simpa using hi), List.map_set]
  · simp only [List.length_set]

/-- The index found by the search loop of `carray_remove` lies inside the array. -/
theorem carray_remove_scan_range {α : Type} (m : object_methods α) (a : carray_object α)
    (num : PyObject) :
    ∀ (fuel i : Nat) (k : Int), carray_remove_scan m a num fuel i = .ok k →
      k = -1 ∨ ((i : Int) ≤ k ∧ k < (i : Int) + fuel) := by
  intro fuel
  induction fuel with
  | zero =>
    intro i k h
    simp only [carray_remove_scan] at h
    cases h
    exact Or.inl rfl
  | succ fuel ih =>
    intro i k h
    simp only [carray_remove_scan] at h
    split at h
    · cases h
    · split at h
      · cases h
        right
        constructor <;> omega
      · rcases ih (i + 1) k h with h1 | ⟨h1, h2⟩
        · exact Or.inl h1
        · right
          constructor
          · omega
          · push_cast at h1 h2 ⊢
            omega

theorem increase_capacity_models {α : Type} (a : carray_object α) (xs : List α)
    (h : Models a xs) (hc : a.size ≤ a.capacity) :
    Models (increase_capacity a) xs ∧ (increase_capacity a).size = a.size := by
  obtain ⟨rest, hi, _⟩ := h.items_eq
  unfold increase_capacity
  split
  · obtain ⟨rest1, hr, _⟩ := realloc_keep (xs.map some) rest (a.capacity * 2 + 1)
      (by simp; have := h.1; omega)
    exact ⟨Models.of_items rest1 h.1 (by simp only [hi, hr]), rfl⟩
  · exact ⟨h, rfl⟩

theorem carray_append_models_of_ok {α : Type} (m : object_methods α) (a a1 : carray_object α)
    (xs : List α) (v : PyObject) (h : Models a xs) (hc : a.size ≤ a.capacity)
    (hok : carray_append m a v = .ok a1) : Models a1 (xs ++ [m.as_c v]) := by
  obtain ⟨hm, hs⟩ := increase_capacity_models a xs h hc
  unfold carray_append at hok
  split at hok
  · cases hok
  · simp only at hok
    split at hok
    · cases hok
    · rename_i s1 hset
      cases hok
      have hlt : (increase_capacity a).size < (increase_capacity a).items.length := by
        by_contra hn
        simp [set_T_item, cell_write, hn] at hset
      obtain ⟨s2, hset2, hm2, _⟩ := set_T_item_end m (increase_capacity a) xs v hm hlt
      rw [hset2] at hset
      cases hset
      exact hm2

theorem insert_T_ok_bound {α : Type} (m : object_methods α) (s s1 : carray_object α)
    (p : Nat) (v : PyObject) (hp : p ≤ s.size) (hok : insert_T m s p v = .ok s1) :
    s.size < s.items.length := by
  unfold insert_T memmove at hok
  split at hok
  · cases hok
  · rename_i items hmv
    split at hmv
    · rename_i hn
      cases hmv
      split at hok
      · cases hok
      · rename_i s2 hset
        unfold set_T_item cell_write at hset
        simp only at hset
        split at hset
        · cases hset
        · rename_i hw
          split at hw
          · omega
          · cases hw
    · split at hmv
      · omega
      · cases hmv

theorem carray_insert_models_of_ok {α : Type} (m : object_methods α) (a a1 : carray_object α)
    (xs : List α) (i : Int) (v : PyObject) (h : Models a xs) (hc : a.size ≤ a.capacity)
    (hok : carray_insert m a i v = .ok a1) :
    Models a1 (xs.take (max 0 (min (get_index xs.length i) xs.length)).toNat
      ++ m.as_c v :: xs.drop (max 0 (min (get_index xs.length i) xs.length)).toNat) := by
  obtain ⟨hm, hs⟩ := increase_capacity_models a xs h hc
  have hsz := h.1
  unfold carray_insert at hok
  split at hok
  · cases hok
  · have he := insert_index_eq a.size i
    simp only at he hok
    rw [he, hsz] at hok
    have hb := insert_T_ok_bound m _ _ _ v (by rw [hs, hsz]; omega) hok
    obtain ⟨s1, hins, hm1, _⟩ := insert_T_spec m (increase_capacity a) xs
      (max 0 (min (get_index xs.length i) xs.length)).toNat v hm (by omega) hb
    rw [hins] at hok
    cases hok
    exact hm1

theorem carray_pop_models_of_ok {α : Type} (m : object_methods α) (a a1 : carray_object α)
    (xs : List α) (arg : Option Int) (w : PyObject) (h : Models a xs)
    (hok : carray_pop m a arg = .ok (a1, w)) :
    Models a1 (xs.eraseIdx (get_index xs.length (arg.getD ((xs.length : Int) - 1))).toNat) := by
  by_cases hr : 0 ≤ get_index xs.length (arg.getD ((xs.length : Int) - 1))
      ∧ get_index xs.length (arg.getD ((xs.length : Int) - 1)) < xs.length
  · obtain ⟨a2, x, h1, _, h3, _⟩ := carray_pop_spec m a xs arg h hr
    rw [h1] at hok
    cases hok
    exact h3
  · rw [carray_pop_index_error m a arg (by rw [h.1]; exact hr)] at hok
    cases hok

theorem carray_remove_models_of_ok {α : Type} (m : object_methods α) (a a1 : carray_object α)
    (xs : List α) (v : PyObject) (h : Models a xs) (hok : carray_remove m a v = .ok a1) :
    ∃ ys, Models a1 ys := by
  unfold carray_remove at hok
  split at hok
  · cases hok
    exact ⟨xs, h⟩
  · split at hok
    · cases hok
    · rename_i index hscan
      split at hok
      · rename_i hne
        rcases carray_remove_scan_range m a v a.size 0 index hscan with h1 | ⟨h1, h2⟩
        · exact absurd h1 hne
        · have hk : index.toNat < xs.length := by
            rw [← h.1]
            omega
          obtain ⟨s, hpop, hm, _⟩ := pop_T_spec m a xs index.toNat h hk
          rw [hpop] at hok
          simp only at hok
          cases hok
          exact ⟨_, (reduce_capacity_spec s _ hm).1⟩
      · cases hok
        exact ⟨xs, h⟩

theorem set_item_models_of_ok {α : Type} (m : object_methods α) (a a1 : carray_object α)
    (xs : List α) (j : Int) (v : PyObject) (h : Models a xs)
    (hok : set_item m a j v = .ok a1) : ∃ ys, Models a1 ys := by
  unfold set_item at hok
  split at hok
  · rename_i hb
    split at hok
    · cases hok
    · have hk : j.toNat < xs.length := by
        rw [← h.1]
        omega
      obtain ⟨a2, hset, hm, _⟩ := set_T_item_inside m a xs _ v h hk
      rw [hset] at hok
      cases hok
      exact ⟨_, hm⟩
  · cases hok

theorem setitem_models_of_ok {α : Type} (m : object_methods α) (a a1 : carray_object α)
    (xs : List α) (i : Int) (v : PyObject) (h : Models a xs)
    (hok : PySequence_SetItem m a i v = .ok a1) : ∃ ys, Models a1 ys :=
  set_item_models_of_ok m a a1 xs _ v h hok

/-- Every reachable state keeps its length within its capacity field and holds
some cell sequence: its first `size` slots lie inside the block and have been
written. -/
theorem reachable_invariant {α : Type} (m : object_methods α) (a : carray_object α)
    (h : Reachable m a) : a.size ≤ a.capacity ∧ ∃ xs, Models a xs := by
  induction h with
  | construct iterable a h =>
    refine ⟨le_of_eq (carray_init_T_fields h), ?_⟩
    cases iterable with
    | none =>
      simp only [carray_init_T] at h
      cases h
      exact ⟨[], rfl, rfl⟩
    | some it =>
      cases it with
      | unsized =>
        simp [carray_init_T, PySequence_Size] at h
      | sequence s =>
        rcases first_invalid_split m s with hall | ⟨pre, x, post, e, hs, hpre, hx⟩
        · rw [carray_init_T_ok m s hall] at h
          cases h
          exact ⟨s.map m.as_c, Models.of_items [] (by simp) (by simp)⟩
        · rw [hs, carray_init_T_fail m pre post x e hpre hx] at h
          cases h
  | append a a1 v _ h ih =>
    obtain ⟨hc, xs, hm⟩ := ih
    obtain ⟨h1, h2⟩ := carray_append_fields h
    refine ⟨?_, _, carray_append_models_of_ok m a a1 xs v hm hc h⟩
    rw [h1, h2]
    split <;> omega
  | insert a a1 i v _ h ih =>
    obtain ⟨hc, xs, hm⟩ := ih
    obtain ⟨h1, h2⟩ := carray_insert_fields h
    refine ⟨?_, _, carray_insert_models_of_ok m a a1 xs i v hm hc h⟩
    rw [h1, h2]
    split <;> omega
  | pop a a1 arg v _ h ih =>
    obtain ⟨hc, xs, hm⟩ := ih
    obtain ⟨h1, h2⟩ := carray_pop_fields h
    refine ⟨?_, _, carray_pop_models_of_ok m a a1 xs arg v hm h⟩
    rw [h1, h2]
    split <;> omega
  | remove a a1 v _ h ih =>
    obtain ⟨hc, xs, hm⟩ := ih
    refine ⟨?_, carray_remove_models_of_ok m a a1 xs v hm h⟩
    rcases carray_remove_fields h with h1 | ⟨h1, h2⟩
    · rw [h1]
      exact hc
    · rw [h1, h2]
      split <;> omega
  | set a a1 i v _ h ih =>
    obtain ⟨hc, xs, hm⟩ := ih
    refine ⟨?_, setitem_models_of_ok m a a1 xs i v hm h⟩
    obtain ⟨h1, h2⟩ := set_item_fields h
    rw [h1, h2]
    exact hc
  | reversed a a1 _ h ih =>
    obtain ⟨hc, xs, hm⟩ := ih
    obtain ⟨r, hr, hs, hcp, _, hmr⟩ := carray_reversed_models m a xs hm
    rw [hr] at h
    cases h
    exact ⟨by rw [hs, hcp]; exact hc, _, hmr⟩

/-! ## Element size and cursor after a successful call -/

theorem set_T_item_kept {α : Type} {m : object_methods α} {s s1 : carray_object α}
    {i : Nat} {v : PyObject} (h : set_T_item m s i v = .ok s1) :
    s1.t_size = s.t_size ∧ s1.step = s.step := by
  unfold set_T_item at h
  split at h
  · cases h
  · cases h
    exact ⟨rfl, rfl⟩

theorem increase_capacity_kept {α : Type} (a : carray_object α) :
    (increase_capacity a).t_size = a.t_size ∧ (increase_capacity a).step = a.step := by
  unfold increase_capacity
  split <;> exact ⟨rfl, rfl⟩

theorem reduce_capacity_kept {α : Type} (a : carray_object α) :
    (reduce_capacity a).t_size = a.t_size ∧ (reduce_capacity a).step = a.step := by
  unfold reduce_capacity
  split <;> exact ⟨rfl, rfl⟩

theorem carray_append_kept {α : Type} {m : object_methods α} {a a1 : carray_object α}
    {v : PyObject} (h : carray_append m a v = .ok a1) :
    a1.t_size = a.t_size ∧ a1.step = a.step := by
  unfold carray_append at h
  split at h
  · cases h
  · simp only at h
    split at h
    · cases h
    · rename_i s1 hs
      cases h
      obtain ⟨h1, h2⟩ := set_T_item_kept hs
      obtain ⟨h3, h4⟩ := increase_capacity_kept a
      exact ⟨h1.trans h3, h2.trans h4⟩

theorem insert_T_kept {α : Type} {m : object_methods α} {s s1 : carray_object α}
    {p : Nat} {v : PyObject} (h : insert_T m s p v = .ok s1) :
    s1.t_size = s.t_size ∧ s1.step = s.step := by
  unfold insert_T at h
  split at h
  · cases h
  · split at h
    · cases h
    · rename_i s2 hs
      cases h
      obtain ⟨h1, h2⟩ := set_T_item_kept hs
      exact ⟨h1, h2⟩

theorem carray_insert_kept {α : Type} {m : object_methods α} {a a1 : carray_object α}
    {i : Int} {v : PyObject} (h : carray_insert m a i v = .ok a1) :
    a1.t_size = a.t_size ∧ a1.step = a.step := by
  unfold carray_insert at h
  split at h
  · cases h
  · obtain ⟨h1, h2⟩ := insert_T_kept h
    obtain ⟨h3, h4⟩ := increase_capacity_kept a
    exact ⟨h1.trans h3, h2.trans h4⟩

theorem pop_T_kept {α : Type} {m : object_methods α} {s s1 : carray_object α}
    {p : Nat} {v : PyObject} (h : pop_T m s p = .ok (s1, v)) :
    s1.t_size = s.t_size ∧ s1.step = s.step := by
  unfold pop_T at h
  split at h
  · cases h
  · split at h
    · cases h
    · cases h
      exact ⟨rfl, rfl⟩

theorem carray_pop_kept {α : Type} {m : object_methods α} {a a1 : carray_object α}
    {arg : Option Int} {v : PyObject} (h : carray_pop m a arg = .ok (a1, v)) :
    a1.t_size = a.t_size ∧ a1.step = a.step ∧ 1 ≤ a.size := by
  unfold carray_pop at h
  simp only at h
  split at h
  · rename_i hb
    split at h
    · cases h
    · rename_i s num hs
      cases h
      obtain ⟨h1, h2⟩ := pop_T_kept hs
      obtain ⟨h3, h4⟩ := reduce_capacity_kept s
      exact ⟨h3.trans h1, h4.trans h2, by omega⟩
  · cases h

theorem carray_remove_kept {α : Type} {m : object_methods α} {a a1 : carray_object α}
    {v : PyObject} (h : carray_remove m a v = .ok a1) :
    a1.t_size = a.t_size ∧ a1.step = a.step := by
  unfold carray_remove at h
  split at h
  · cases h
    exact ⟨rfl, rfl⟩
  · split at h
    · cases h
    · split at h
      · split at h
        · cases h
        · rename_i s num hs
          cases h
          obtain ⟨h1, h2⟩ := pop_T_kept hs
          obtain ⟨h3, h4⟩ := reduce_capacity_kept s
          exact ⟨h3.trans h1, h4.trans h2⟩
      · cases h
        exact ⟨rfl, rfl⟩

theorem set_item_kept {α : Type} {m : object_methods α} {s s1 : carray_object α}
    {i : Int} {v : PyObject} (h : set_item m s i v = .ok s1) :
    s1.t_size = s.t_size ∧ s1.step = s.step := by
  unfold set_item at h
  split at h
  · split at h
    · cases h
    · exact set_T_item_kept h
  · cases h

theorem carray_init_loop_kept {α : Type} (m : object_methods α) :
    ∀ (xs : List PyObject) (s s1 : carray_object α) (i : Nat),
      carray_init_loop m s i xs = .ok s1 → s1.t_size = s.t_size := by
  intro xs
  induction xs with
  | nil =>
    intro s s1 i h
    simp only [carray_init_loop] at h
    cases h
    rfl
  | cons x xs ih =>
    intro s s1 i h
    simp only [carray_init_loop] at h
    split at h
    · cases h
    · rename_i s2 hs
      exact (ih s2 s1 (i + 1) h).trans (set_item_kept hs).1

theorem carray_init_T_t_size {α : Type} {m : object_methods α} {a : carray_object α}
    {iterable : Option PyIterable} (h : carray_init_T m carray_new iterable = .ok a) :
    a.t_size = m.t_size := by
  unfold carray_init_T at h
  simp only at h
  split at h
  · cases h
    rfl
  · split at h
    · cases h
    · split at h
      · cases h
      · exact carray_init_loop_kept m _ _ _ _ h

theorem carray_reversed_t_size {α : Type} {m : object_methods α} {a r : carray_object α}
    (h : carray_reversed m a = .ok r) : r.t_size = m.t_size := by
  unfold carray_reversed reversed_T carray_init_T at h
  simp only at h
  split at h
  · cases h
  · rename_i r1 hr
    cases h
    simp only
    split at hr
    · cases hr
      rfl
    · split at hr
      · cases hr
      · split at hr
        · cases hr
        · split at hr
          · cases hr
          · cases hr
            rfl

/-- In every reachable state the element size is the `sizeof` of the row. -/
theorem reachable_t_size {α : Type} (m : object_methods α) (a : carray_object α)
    (h : Reachable m a) : a.t_size = m.t_size := by
  induction h with
  | construct iterable a h => exact carray_init_T_t_size h
  | append a a1 v _ h ih => exact (carray_append_kept h).1.trans ih
  | insert a a1 i v _ h ih => exact (carray_insert_kept h).1.trans ih
  | pop a a1 arg v _ h ih => exact (carray_pop_kept h).1.trans ih
  | remove a a1 v _ h ih => exact (carray_remove_kept h).1.trans ih
  | set a a1 i v _ h ih => exact (set_item_kept h).1.trans ih
  | reversed a a1 _ h ih => exact carray_reversed_t_size h

/-! ## Entry points -/

/-- An index within the `int` range reaches the `int` unchanged. -/
theorem c_int_of_int (z : Int) (h0 : INT_MIN ≤ z) (h1 : z ≤ INT_MAX) : c_int z = z := by
  unfold INT_MIN at h0
  unfold INT_MAX at h1
  unfold c_int
  omega

/-- The value an `int` holds is within the `int` range. -/
theorem c_int_range (z : Int) : INT_MIN ≤ c_int z ∧ c_int z ≤ INT_MAX := by
  unfold INT_MIN INT_MAX c_int
  omega

/-- Format `n` through the address of an `int` always runs past the variable. -/
theorem parse_n_int (value : Int) : parse_n sizeof_int value = .error .fault := rfl

/-- `set_item_run` succeeds exactly when `set_item` does, with the same object. -/
theorem set_item_run_ok {α : Type} (m : object_methods α) (a a1 : carray_object α)
    (i : Int) (v : PyObject) :
    set_item_run m a i v = (a1, .ok ()) ↔ set_item m a i v = .ok a1 := by
  unfold set_item_run set_item
  split
  · split
    · simp
    · split <;> simp_all
  · simp

/-- For an index within the `int` range the `sq_item` slot is `get_item` at it. -/
theorem sq_item_of_int {α : Type} (m : object_methods α) (a : carray_object α) (i : Int)
    (h0 : INT_MIN ≤ i) (h1 : i ≤ INT_MAX) : sq_item m a i = get_item m a i := by
  unfold sq_item
  rw [c_int_of_int i h0 h1]

/-! ## The comparison loop -/

theorem sequence_item_nat (ys : List PyObject) (i : Nat) :
    sequence_item (.sequence ys) (i : Int) = ys[i]? := by
  simp only [sequence_item, Int.ofNat_nonneg, if_true, Int.toNat_ofNat]

/-- The loop of `carray_compare` on sequences of one length: `Py_True` when
every remaining pair compares equal, `Py_False` at the first pair that does not. -/
theorem carray_compare_loop_spec {α : Type} (m : object_methods α) (a : carray_object α)
    (xs : List α) (ys : List PyObject) (h : Models a xs) (hl : ys.length = xs.length) :
    ∀ (fuel i : Nat), i + fuel = xs.length →
      ((∀ (j : Nat) (x : α) (y : PyObject), i ≤ j → xs[j]? = some x → ys[j]? = some y →
          PyObject_RichCompareBool (m.from_c x) y .Py_EQ ≠ 0) →
        carray_compare_loop m a (.sequence ys) fuel i = .ok .Py_True)
      ∧ ((∃ (j : Nat) (x : α) (y : PyObject), i ≤ j ∧ xs[j]? = some x ∧ ys[j]? = some y
          ∧ PyObject_RichCompareBool (m.from_c x) y .Py_EQ = 0) →
        carray_compare_loop m a (.sequence ys) fuel i = .ok .Py_False) := by
  intro fuel
  induction fuel with
  | zero =>
    intro i hi
    constructor
    · intro _
      rfl
    · rintro ⟨j, x, y, hj, hx, _, _⟩
      have : j < xs.length := by
        rcases Nat.lt_or_ge j xs.length with hlt | hge
        · exact hlt
        · rw [List.getElem?_eq_none hge] at hx
          cases hx
      omega
  | succ fuel ih =>
    intro i hi
    have hix : i < xs.length := by omega
    have hiy : i < ys.length := by omega
    have hx : xs[i]? = some xs[i] := List.getElem?_eq_getElem hix
    have hy : ys[i]? = some ys[i] := List.getElem?_eq_getElem hiy
    obtain ⟨ih1, ih2⟩ := ih (i + 1) (by omega)
    by_cases hc : PyObject_RichCompareBool (m.from_c xs[i]) ys[i] .Py_EQ = 0
    · constructor
      · intro hall
        exact absurd hc (hall i _ _ (Nat.le_refl _) hx hy)
      · intro _
        simp only [carray_compare_loop, get_T_item_spec m a xs i _ h hx, sequence_item_nat, hy,
          hc, if_true]
    · constructor
      · intro hall
        simp only [carray_compare_loop, get_T_item_spec m a xs i _ h hx, sequence_item_nat, hy,
          hc, if_false]
        exact ih1 (fun j x y hj => hall j x y (by omega))
      · rintro ⟨j, x, y, hj, hxj, hyj, hne⟩
        simp only [carray_compare_loop, get_T_item_spec m a xs i _ h hx, sequence_item_nat, hy,
          hc, if_false]
        apply ih2
        rcases Nat.eq_or_lt_of_le hj with he | hlt
        · subst he
          rw [hx] at hxj
          rw [hy] at hyj
          cases hxj
          cases hyj
          exact absurd hne hc
        · exact ⟨j, x, y, hlt, hxj, hyj, hne⟩

/-! ## Iteration -/

theorem models_step {α : Type} (a : carray_object α) (xs : List α) (s : Nat)
    (h : Models a xs) : Models { a with step := s } xs := h

/-- An advance step changes nothing but the cursor. -/
theorem carray_next_state {α : Type} (m : object_methods α) (a : carray_object α) :
    (carray_next m a).1.t_size = a.t_size ∧ (carray_next m a).1.size = a.size
      ∧ (carray_next m a).1.capacity = a.capacity ∧ (carray_next m a).1.items = a.items := by
  unfold carray_next
  split <;> exact ⟨rfl, rfl, rfl, rfl⟩

theorem carray_next_n_state {α : Type} (m : object_methods α) :
    ∀ (n : Nat) (a : carray_object α),
      (carray_next_n m n a).1.t_size = a.t_size ∧ (carray_next_n m n a).1.size = a.size
        ∧ (carray_next_n m n a).1.capacity = a.capacity
        ∧ (carray_next_n m n a).1.items = a.items := by
  intro n
  induction n with
  | zero =>
    intro a
    exact ⟨rfl, rfl, rfl, rfl⟩
  | succ n ih =>
    intro a
    simp only [carray_next_n]
    obtain ⟨h1, h2, h3, h4⟩ := ih (carray_next m a).1
    obtain ⟨g1, g2, g3, g4⟩ := carray_next_state m a
    exact ⟨h1.trans g1, h2.trans g2, h3.trans g3, h4.trans g4⟩

/-- An advance step inside the array yields the element under the cursor and
moves the cursor by one. -/
theorem carray_next_inside {α : Type} (m : object_methods α) (a : carray_object α)
    (xs : List α) (x : α) (h : Models a xs) (hx : xs[a.step]? = some x) :
    carray_next m a = ({ a with step := a.step + 1 }, .ok (m.from_c x)) := by
  have hk : a.step < xs.length := by
    rcases Nat.lt_or_ge a.step xs.length with hlt | hge
    · exact hlt
    · rw [List.getElem?_eq_none hge] at hx
      cases hx
  have hlt : a.step < a.size := by
    rw [h.1]
    exact hk
  simp only [carray_next, hlt, if_true]
  rw [get_T_item_spec m _ xs a.step x (models_step a xs (a.step + 1) h) hx]

/-- An advance step with the cursor at or past the length signals exhaustion
and leaves the array as it is. -/
theorem carray_next_outside {α : Type} (m : object_methods α) (a : carray_object α)
    (h : a.size ≤ a.step) : carray_next m a = (a, .error (.PyErr .StopIteration)) := by
  have hn : ¬ a.step < a.size := by omega
  simp only [carray_next, hn, if_false]

theorem carray_next_n_exhausted {α : Type} (m : object_methods α) :
    ∀ (j : Nat) (a : carray_object α), a.size ≤ a.step →
      carray_next_n m j a = (a, List.replicate j (.error (.PyErr .StopIteration))) := by
  intro j
  induction j with
  | zero =>
    intro a _
    rfl
  | succ j ih =>
    intro a h
    simp only [carray_next_n, carray_next_outside m a h, ih a h, List.replicate_succ]

/-- A pass started with the cursor at `k`: the remaining elements in order,
then exhaustion at every later step. -/
theorem carray_next_n_spec {α : Type} (m : object_methods α) (xs : List α) (j : Nat) :
    ∀ (d : Nat) (a : carray_object α), Models a xs → a.step + d = xs.length →
      carray_next_n m (d + j) a
        = ({ a with step := xs.length },
            (xs.drop a.step).map (fun x => Except.ok (m.from_c x))
              ++ List.replicate j (.error (.PyErr .StopIteration))) := by
  intro d
  induction d with
  | zero =>
    intro a h hs
    have hstep : a.step = xs.length := by omega
    have hsz : a.size ≤ a.step := by
      rw [h.1]
      omega
    rw [Nat.zero_add, carray_next_n_exhausted m j a hsz, List.drop_of_length_le (by omega)]
    simp only [List.map_nil, List.nil_append, ← hstep]
  | succ d ih =>
    intro a h hs
    have hk : a.step < xs.length := by omega
    have hx : xs[a.step]? = some xs[a.step] := List.getElem?_eq_getElem hk
    have hn := carray_next_inside m a xs _ h hx
    have hrec := ih { a with step := a.step + 1 } (models_step a xs _ h)
      (by simp only; omega)
    have hd : d + 1 + j = (d + j) + 1 := by omega
    rw [hd]
    simp only [carray_next_n, hn, hrec]
    rw [List.drop_eq_getElem_cons hk]
    simp only [List.map_cons, List.cons_append]

theorem getitem_range {α : Type} (m : object_methods α) (a : carray_object α) (xs : List α)
    (h : Models a xs) :
    (List.range xs.length).map (fun (i : Nat) => PySequence_GetItem m a (i : Int))
      = xs.map (fun x => Except.ok (m.from_c x)) := by
  apply List.ext_getElem?
  intro i
  rcases Nat.lt_or_ge i xs.length with hi | hi
  · have hx : xs[i]? = some xs[i] := List.getElem?_eq_getElem hi
    rw [List.getElem?_map, List.getElem?_map, List.getElem?_range hi, hx]
    simp only [Option.map_some']
    rw [getitem_spec m a xs i _ h hx]
  · rw [List.getElem?_eq_none (by simpa using hi), List.getElem?_eq_none (by simpa using hi)]

/-! ## Binary search -/

theorem compare_le_finite (a b : PyObject) (ha : a.is_finite_number)
    (hb : b.is_finite_number) :
    PyObject_RichCompareBool a b .Py_LE ≠ 0 ↔ a.value ≤ b.value := by
  unfold PyObject.is_finite_number at ha hb
  simp only [PyObject_RichCompareBool, ha, hb, PyNum.lt, PyNum.eq]
  by_cases h : a.value ≤ b.value
  · rcases lt_or_eq_of_le h with h1 | h1 <;> simp [h, h1]
  · have h1 : ¬ a.value < b.value := fun hlt => h (le_of_lt hlt)
    have h2 : ¬ a.value = b.value := fun he => h (le_of_eq he)
    simp [h, h1, h2]

theorem compare_ne_finite (a b : PyObject) (ha : a.is_finite_number)
    (hb : b.is_finite_number) :
    PyObject_RichCompareBool a b .Py_NE ≠ 0 ↔ a.value ≠ b.value := by
  unfold PyObject.is_finite_number at ha hb
  simp only [PyObject_RichCompareBool, ha, hb, PyNum.eq]
  by_cases h : a.value = b.value <;> simp [h]

theorem compare_eq_finite (a b : PyObject) (ha : a.is_finite_number)
    (hb : b.is_finite_number) :
    PyObject_RichCompareBool a b .Py_EQ ≠ 0 ↔ a.value = b.value := by
  unfold PyObject.is_finite_number at ha hb
  simp only [PyObject_RichCompareBool, ha, hb, PyNum.eq]
  by_cases h : a.value = b.value <;> simp [h]

/-- Comparing two numbers never raises. -/
theorem compare_numbers_not_raised (a b : PyObject) (ha : a.is_finite_number)
    (hb : b.is_finite_number) (op : CompareOp) :
    PyObject_RichCompareBool a b op ≠ -1 := by
  unfold PyObject.is_finite_number at ha hb
  simp only [PyObject_RichCompareBool, ha, hb]
  split_ifs <;> decide

/-- The loop of `binary_search` ends within `right - left` iterations, whatever
the sequence and the target are. -/
theorem binary_search_loop_ends (item : PyObject) (iterable : PyIterable) :
    ∀ (fuel : Nat) (left right : Int) (raised : Option PyExc), right - left ≤ fuel →
      binary_search_loop item iterable fuel left right raised ≠ none := by
  intro fuel
  induction fuel with
  | zero =>
    intro left right raised h
    have hn : ¬ left < right := by omega
    simp only [binary_search_loop, hn, if_false]
    exact Option.some_ne_none _
  | succ fuel ih =>
    intro left right raised h
    by_cases hlt : left < right
    · simp only [binary_search_loop, hlt, if_true]
      split
      · exact Option.some_ne_none _
      · split
        · exact Option.some_ne_none _
        · split
          · exact ih _ _ _ (by push_cast at h; omega)
          · exact ih _ _ _ (by push_cast at h; omega)
    · simp only [binary_search_loop, hlt, if_false]
      exact Option.some_ne_none _

/-- With `left` not below `right` the loop of `binary_search` is over at once. -/
theorem binary_search_loop_done (item : PyObject) (iterable : PyIterable) (fuel : Nat)
    (left right : Int) (raised : Option PyExc) (h : ¬ left < right) :
    binary_search_loop item iterable fuel left right raised
      = some (.ok (left, right, raised)) := by
  cases fuel <;> simp only [binary_search_loop, h, if_false]

/-- The loop of `binary_search` on a sorted sequence of at most `2 ^ 30` finite
numbers: it ends with `left = right = p`, every element before `p` below the
target, and the element at `p` at or above the target unless `p` is the last
index; no comparison raises. -/
theorem binary_search_loop_spec (item : PyObject) (xs : List PyObject)
    (hitem : item.is_finite_number) (hfin : ∀ x ∈ xs, x.is_finite_number)
    (hsorted : ∀ (i j : Nat) (x y : PyObject), i ≤ j → xs[i]? = some x → xs[j]? = some y →
      x.value ≤ y.value)
    (hlen : xs.length ≤ 2 ^ 30) (raised : Option PyExc) :
    ∀ (fuel l r : Nat), l ≤ r → r < xs.length → r - l ≤ fuel →
      (∀ (i : Nat) (x : PyObject), i < l → xs[i]? = some x → x.value < item.value) →
      (r = xs.length - 1 ∨ ∃ y, xs[r]? = some y ∧ item.value ≤ y.value) →
      ∃ p : Nat, binary_search_loop item (.sequence xs) fuel (l : Int) (r : Int) raised
          = some (.ok ((p : Int), (p : Int), raised))
        ∧ p < xs.length
        ∧ (∀ (i : Nat) (x : PyObject), i < p → xs[i]? = some x → x.value < item.value)
        ∧ (p = xs.length - 1 ∨ ∃ y, xs[p]? = some y ∧ item.value ≤ y.value) := by
  intro fuel
  induction fuel with
  | zero =>
    intro l r hlr hr hf hA hB
    have he : l = r := by omega
    subst he
    refine ⟨l, ?_, hr, hA, hB⟩
    simp only [binary_search_loop, lt_self_iff_false, if_false]
  | succ fuel ih =>
    intro l r hlr hr hf hA hB
    by_cases hlt : l < r
    · have hlti : (l : Int) < (r : Int) := by omega
      have hsum : ¬ (INT_MAX < (l : Int) + (r : Int)) := by
        unfold INT_MAX
        omega
      have hmid : ((l : Int) + (r : Int)) / 2 = (((l + r) / 2 : Nat) : Int) := by omega
      have hml : l ≤ (l + r) / 2 := by omega
      have hmr : (l + r) / 2 < r := by omega
      have hmx : (l + r) / 2 < xs.length := by omega
      have hx : xs[(l + r) / 2]? = some xs[(l + r) / 2] := List.getElem?_eq_getElem hmx
      have hxf : (xs[(l + r) / 2]).is_finite_number := hfin _ (List.getElem?_mem hx)
      have hnr := compare_numbers_not_raised item xs[(l + r) / 2] hitem hxf .Py_LE
      simp only [binary_search_loop, hlti, if_true, hsum, if_false, hmid, sequence_item_nat, hx,
        hnr]
      by_cases hle : PyObject_RichCompareBool item xs[(l + r) / 2] .Py_LE ≠ 0
      · rw [if_pos hle]
        have hv := (compare_le_finite item _ hitem hxf).mp hle
        exact ih l ((l + r) / 2) hml hmx (by omega) hA (Or.inr ⟨_, hx, hv⟩)
      · rw [if_neg hle]
        have hv : xs[(l + r) / 2].value < item.value := by
          have := (compare_le_finite item _ hitem hxf).not.mp hle
          exact lt_of_not_le this
        have hcast : (((l + r) / 2 : Nat) : Int) + 1 = (((l + r) / 2 + 1 : Nat) : Int) := by
          push_cast
          rfl
        rw [hcast]
        refine ih ((l + r) / 2 + 1) r (by omega) hr (by omega) ?_ hB
        intro i x hi hxi
        exact lt_of_le_of_lt (hsorted i ((l + r) / 2) x _ (by omega) hxi hx) hv
    · have he : l = r := by omega
      subst he
      refine ⟨l, ?_, hr, hA, hB⟩
      simp only [binary_search_loop, lt_self_iff_false, if_false]

/-- `binary_search` returns for every operand and every target. -/
theorem binary_search_ends (iterable : PyIterable) (item : PyObject) :
    binary_search iterable item ≠ none := by
  have hloop := binary_search_loop_ends item iterable (c_int (PySequence_Size iterable)).toNat 0
    (c_int (PySequence_Size iterable) - 1)
    (if PySequence_Size iterable = -1 then some PyExc.TypeError else none) (by omega)
  unfold binary_search
  simp only
  split
  · exact Option.some_ne_none _
  · split
    · rename_i hnone
      exact absurd hnone hloop
    · exact Option.some_ne_none _
    · split
      · exact Option.some_ne_none _
      · split
        · exact Option.some_ne_none _
        · split <;> exact Option.some_ne_none _

/-- `binary_search` on a non-empty sorted sequence of at most `2 ^ 30` finite
numbers: the index `p` the loop ends at has only smaller elements before it,
and the answer is `p` when the element there has the value of the target and
`None` otherwise, with no exception set. -/
theorem binary_search_sorted (item : PyObject) (xs : List PyObject)
    (hitem : item.is_finite_number) (hfin : ∀ x ∈ xs, x.is_finite_number)
    (hsorted : ∀ (i j : Nat) (x y : PyObject), i ≤ j → xs[i]? = some x → xs[j]? = some y →
      x.value ≤ y.value) (hne : 0 < xs.length) (hlen : xs.length ≤ 2 ^ 30) :
    ∃ (p : Nat) (z : PyObject), xs[p]? = some z
      ∧ (∀ (i : Nat) (x : PyObject), i < p → xs[i]? = some x → x.value < item.value)
      ∧ (p = xs.length - 1 ∨ item.value ≤ z.value)
      ∧ binary_search (.sequence xs) item
          = some (.ok (if item.value ≠ z.value then none else some (p : Int), none)) := by
  obtain ⟨p, hrun, hp, hA, hB⟩ := binary_search_loop_spec item xs hitem hfin hsorted hlen none
    xs.length 0 (xs.length - 1) (Nat.zero_le _) (by omega) (by omega)
    (fun i x hi _ => absurd hi (Nat.not_lt_zero i)) (Or.inl rfl)
  have hz : xs[p]? = some xs[p] := List.getElem?_eq_getElem hp
  have hzf : (xs[p]).is_finite_number := hfin _ (List.getElem?_mem hz)
  refine ⟨p, xs[p], hz, hA, ?_, ?_⟩
  · rcases hB with hB | ⟨y, hy, hle⟩
    · exact Or.inl hB
    · rw [hz] at hy
      cases hy
      exact Or.inr hle
  · have hsz : c_int (PySequence_Size (.sequence xs)) = (xs.length : Int) := by
      simp only [PySequence_Size]
      apply c_int_of_int
      · unfold INT_MIN
        omega
      · unfold INT_MAX
        omega
    have hr : (xs.length : Int) - 1 = ((xs.length - 1 : Nat) : Int) := by omega
    have hmin : ¬ ((xs.length : Int) = INT_MIN) := by
      unfold INT_MIN
      omega
    have hun : ¬ (PySequence_Size (.sequence xs) = -1) := by
      simp only [PySequence_Size]
      omega
    have hpn : ¬ ((p : Int) < 0) := by omega
    have hnr := compare_numbers_not_raised item xs[p] hitem hzf .Py_NE
    unfold binary_search
    simp only [hsz, hmin, hun, if_false, hr, Int.toNat_ofNat, Nat.cast_zero] at hrun ⊢
    rw [hrun]
    simp only [hpn, if_false, sequence_item_nat, hz, hnr]
    by_cases hv : item.value ≠ xs[p].value
    · rw [if_pos ((compare_ne_finite item _ hitem hzf).mpr hv), if_pos hv]
    · rw [if_neg (fun hc => hv ((compare_ne_finite item _ hitem hzf).mp hc)), if_neg hv]

/-- On a sequence of at most `2 ^ 30` finite numbers sorted in non-decreasing
order and a numeric target, `binary_search` returns the smallest index whose
element equals the target when the target occurs and `None` when it does not,
with no exception set. -/
theorem binary_search_leftmost (xs : List PyObject) (item : PyObject)
    (hitem : item.is_finite_number) (hfin : ∀ x ∈ xs, x.is_finite_number)
    (hpair : xs.Pairwise (fun x y => x.value ≤ y.value)) (hlen : xs.length ≤ 2 ^ 30) :
    (∀ (k : Nat) (x : PyObject), xs[k]? = some x →
        PyObject_RichCompareBool item x .Py_EQ ≠ 0 →
        (∀ (i : Nat) (y : PyObject), i < k → xs[i]? = some y →
          PyObject_RichCompareBool item y .Py_EQ = 0) →
        binary_search (.sequence xs) item = some (.ok (some (k : Int), none)))
      ∧ ((∀ x ∈ xs, PyObject_RichCompareBool item x .Py_EQ = 0) →
          binary_search (.sequence xs) item = some (.ok (none, none))) := by
  have hsorted : ∀ (i j : Nat) (x y : PyObject), i ≤ j → xs[i]? = some x → xs[j]? = some y →
      x.value ≤ y.value := by
    intro i j x y hij hx hy
    rcases Nat.eq_or_lt_of_le hij with he | hlt
    · subst he
      rw [hx] at hy
      cases hy
      exact le_refl _
    · have hj : j < xs.length := by
        rcases Nat.lt_or_ge j xs.length with h1 | h1
        · exact h1
        · rw [List.getElem?_eq_none h1] at hy
          cases hy
      have hi : i < xs.length := by omega
      have hp := List.pairwise_iff_getElem.mp hpair i j hi hj hlt
      rw [List.getElem?_eq_getElem hi] at hx
      rw [List.getElem?_eq_getElem hj] at hy
      cases hx
      cases hy
      exact hp
  refine ⟨?_, ?_⟩
  · intro k x hk hx hfirst
    have hkl : k < xs.length := by
      rcases Nat.lt_or_ge k xs.length with hlt | hge
      · exact hlt
      · rw [List.getElem?_eq_none hge] at hk
        cases hk
    have hxf : x.is_finite_number := hfin x (List.getElem?_mem hk)
    have hxv : item.value = x.value := (compare_eq_finite item x hitem hxf).mp hx
    obtain ⟨p, z, hz, hA, hB, hres⟩ :=
      binary_search_sorted item xs hitem hfin hsorted (by omega) hlen
    have hzf : z.is_finite_number := hfin z (List.getElem?_mem hz)
    have hpl : p < xs.length := by
      rcases Nat.lt_or_ge p xs.length with hlt | hge
      · exact hlt
      · rw [List.getElem?_eq_none hge] at hz
        cases hz
    have hpk : p ≤ k := by
      by_contra hc
      have := hA k x (by omega) hk
      rw [hxv] at this
      exact lt_irrefl _ this
    have hzv : item.value = z.value := by
      rcases hB with hB | hB
      · have hkp : k = p := by omega
        subst hkp
        rw [hk] at hz
        cases hz
        exact hxv
      · have hle := hsorted p k z x hpk hz hk
        rw [← hxv] at hle
        exact le_antisymm hB hle
    have hkp : k = p := by
      by_contra hc
      have hlt : p < k := by omega
      have h0 := hfirst p z hlt hz
      exact ((compare_eq_finite item z hitem hzf).mpr hzv) h0
    rw [hres, if_neg (fun hc => hc hzv), hkp]
  · intro hnone
    rcases Nat.eq_zero_or_pos xs.length with h0 | hpos
    · have hnil : xs = [] := List.length_eq_zero.mp h0
      subst hnil
      rfl
    · obtain ⟨p, z, hz, _, _, hres⟩ :=
        binary_search_sorted item xs hitem hfin hsorted hpos hlen
      have hzf : z.is_finite_number := hfin z (List.getElem?_mem hz)
      have hzv : item.value ≠ z.value := by
        intro hc
        exact ((compare_eq_finite item z hitem hzf).mpr hc) (hnone z (List.getElem?_mem hz))
      rw [hres, if_pos hzv]

/-! ## Tight capacity -/

/-- In every reachable state an empty array has capacity 0 and a non-empty one
has a capacity below twice its length. -/
theorem reachable_tight {α : Type} (m : object_methods α) (a : carray_object α)
    (h : Reachable m a) :
    (a.size = 0 → a.capacity = 0) ∧ (0 < a.size → a.capacity < 2 * a.size) := by
  induction h with
  | construct iterable a h =>
    have := carray_init_T_fields h
    constructor <;> intro _ <;> omega
  | append a a1 v hr h ih =>
    obtain ⟨h1, h2⟩ := carray_append_fields h
    have hc := (reachable_invariant m a hr).1
    rw [h1, h2]
    obtain ⟨i1, i2⟩ := ih
    constructor
    · intro h0
      omega
    · intro _
      split
      · omega
      · rcases Nat.eq_zero_or_pos a.size with hz | hp
        · have := i1 hz
          omega
        · have := i2 hp
          omega
  | insert a a1 i v hr h ih =>
    obtain ⟨h1, h2⟩ := carray_insert_fields h
    have hc := (reachable_invariant m a hr).1
    rw [h1, h2]
    obtain ⟨i1, i2⟩ := ih
    constructor
    · intro h0
      omega
    · intro _
      split
      · omega
      · rcases Nat.eq_zero_or_pos a.size with hz | hp
        · have := i1 hz
          omega
        · have := i2 hp
          omega
  | pop a a1 arg v _ h ih =>
    obtain ⟨h1, h2⟩ := carray_pop_fields h
    rw [h1, h2]
    constructor
    · intro h0
      split <;> omega
    · intro hp
      split <;> omega
  | remove a a1 v _ h ih =>
    rcases carray_remove_fields h with h1 | ⟨h1, h2⟩
    · rw [h1]
      exact ih
    · rw [h1, h2]
      constructor
      · intro h0
        split <;> omega
      · intro hp
        split <;> omega
  | set a a1 i v _ h ih =>
    obtain ⟨h1, h2⟩ := set_item_fields h
    rw [h1, h2]
    exact ih
  | reversed a a1 _ h ih =>
    obtain ⟨h1, h2⟩ := carray_reversed_fields h
    rw [h1, h2]
    exact ih

/-! ## The claims -/

/-- Claim C1: in every state reached from a construction by appends, inserts,
pops, removals, item assignments and reversed copies, the length is a
non-negative number that does not exceed the capacity. -/
theorem C1_length_within_capacity {α : Type} (m : object_methods α) (a : carray_object α)
    (h : Reachable m a) : (0 : Int) ≤ (a.size : Int) ∧ a.size ≤ a.capacity := by
  refine ⟨Int.ofNat_nonneg _, ?_⟩
  induction h with
  | construct iterable a h => exact le_of_eq (carray_init_T_fields h)
  | append a a1 v _ h ih =>
    obtain ⟨h1, h2⟩ := carray_append_fields h
    rw [h1, h2]
    split <;> omega
  | insert a a1 i v _ h ih =>
    obtain ⟨h1, h2⟩ := carray_insert_fields h
    rw [h1, h2]
    split <;> omega
  | pop a a1 arg v _ h ih =>
    obtain ⟨h1, h2⟩ := carray_pop_fields h
    rw [h1, h2]
    split <;> omega
  | remove a a1 v _ h ih =>
    rcases carray_remove_fields h with h1 | ⟨h1, h2⟩
    · rw [h1]
      exact ih
    · rw [h1, h2]
      split <;> omega
  | set a a1 i v _ h ih =>
    obtain ⟨h1, h2⟩ := set_item_fields h
    rw [h1, h2]
    exact ih
  | reversed a a1 _ h ih =>
    obtain ⟨h1, h2⟩ := carray_reversed_fields h
    rw [h1, h2]
    exact ih

/-- Witness for claim C1: the state reached by constructing `[3, 1, 2]` and
appending 5. -/
theorem C1_length_within_capacity_witness :
    Reachable type_methods_long
        (carray_object.mk 8 0 4 7 [some 3, some 1, some 2, some 5, none, none, none])
      ∧ (0 : Int) ≤ ((carray_object.mk 8 0 4 7
            [some (3 : Int), some 1, some 2, some 5, none, none, none]).size : Int)
      ∧ (carray_object.mk 8 0 4 7
            [some (3 : Int), some 1, some 2, some 5, none, none, none]).size
          ≤ (carray_object.mk 8 0 4 7
            [some (3 : Int), some 1, some 2, some 5, none, none, none]).capacity := by
  have hr : Reachable type_methods_long
      (carray_object.mk 8 0 4 7 [some 3, some 1, some 2, some 5, none, none, none]) :=
    Reachable.append _ _ (.long 5)
      (Reachable.construct (some (.sequence [.long 3, .long 1, .long 2])) _ rfl) rfl
  exact ⟨hr, C1_length_within_capacity type_methods_long _ hr⟩

/-- Claim C2: for the integer kind, construction from a source sequence succeeds
exactly when every element is an `int` within `[LONG_MIN, LONG_MAX]`; on
success length and capacity are the length of the source and `get(i)` returns
the `i`-th source element; otherwise, the elements before the first invalid one
having passed, construction ends with the error validation raises (`TypeError`
in this module) and no array is produced. -/
theorem C2_construct_integer {D : Type} (dbl : object_methods D) (s : List PyObject) :
    ((∃ a, carray_init dbl 'i' (some (.sequence s)) = .ok (.inl a))
        ↔ ∀ x ∈ s, fits_long x)
      ∧ (∀ a, carray_init dbl 'i' (some (.sequence s)) = .ok (.inl a) →
          a.size = s.length ∧ a.capacity = s.length
            ∧ ∀ (i : Nat) (x : PyObject), s[i]? = some x →
                PySequence_GetItem type_methods_long a (i : Int) = .ok x)
      ∧ (∀ pre x post, s = pre ++ x :: post → (∀ y ∈ pre, fits_long y) → ¬ fits_long x →
          carray_init dbl 'i' (some (.sequence s)) = .error (.PyErr .TypeError))
      ∧ ((¬ ∀ x ∈ s, fits_long x) →
          carray_init dbl 'i' (some (.sequence s)) = .error (.PyErr .TypeError)) := by
  have hfit : ∀ x, type_methods_long.check_type x = .ok () ↔ fits_long x :=
    fun x => check_long_ok_iff x
  have hinit : carray_init dbl 'i' (some (.sequence s))
      = (carray_init_T type_methods_long carray_new (some (.sequence s))).map Sum.inl := by
    simp only [carray_init, if_true]
  have hfail : ∀ pre x post, s = pre ++ x :: post → (∀ y ∈ pre, fits_long y) → ¬ fits_long x →
      carray_init dbl 'i' (some (.sequence s)) = .error (.PyErr .TypeError) := by
    intro pre x post hs hpre hx
    have hxe : type_methods_long.check_type x = .error .TypeError :=
      check_long_error x (fun hc => hx ((hfit x).mp hc))
    rw [hinit, hs, carray_init_T_fail type_methods_long pre post x .TypeError
      (fun y hy => (hfit y).mpr (hpre y hy)) hxe]
    rfl
  have hok : (∀ x ∈ s, fits_long x) →
      carray_init dbl 'i' (some (.sequence s))
        = .ok (.inl { t_size := 8, step := 0, size := s.length, capacity := s.length,
                      items := (s.map PyLong_AsLong).map some }) := by
    intro hall
    rw [hinit, carray_init_T_ok type_methods_long s (fun x hx => (hfit x).mpr (hall x hx))]
    rfl
  have hbad : (¬ ∀ x ∈ s, fits_long x) →
      carray_init dbl 'i' (some (.sequence s)) = .error (.PyErr .TypeError) := by
    intro hnot
    rcases first_match_split (fun x => ¬ fits_long x) s with hall | ⟨pre, x, post, hs, hpre, hx⟩
    · exact absurd (fun x hx => not_not.mp (hall x hx)) hnot
    · exact hfail pre x post hs (fun y hy => not_not.mp (hpre y hy)) hx
  refine ⟨⟨?_, ?_⟩, ?_, hfail, hbad⟩
  · rintro ⟨a, ha⟩
    by_contra hnot
    rw [hbad hnot] at ha
    cases ha
  · intro hall
    exact ⟨_, hok hall⟩
  · intro a ha
    have hall : ∀ x ∈ s, fits_long x := by
      by_contra hnot
      rw [hbad hnot] at ha
      cases ha
    rw [hok hall] at ha
    cases ha
    refine ⟨rfl, rfl, ?_⟩
    intro i x hx
    have hm : Models (carray_object.mk 8 0 s.length s.length ((s.map PyLong_AsLong).map some))
        (s.map PyLong_AsLong) :=
      Models.of_items [] (by simp) (by simp)
    obtain ⟨n, hn, hr⟩ := hall x (List.getElem?_mem hx)
    have hx1 : (s.map PyLong_AsLong)[i]? = some n := by
      rw [List.getElem?_map, hx, hn]
      simp [PyLong_AsLong, hr]
    rw [getitem_spec type_methods_long _ _ i n hm hx1, hn]
    rfl

/-- Witness for claim C2: the source `[3, 1, 2]` is accepted and read back (the
row passed for typecode `d` is not consulted). -/
theorem C2_construct_integer_witness :
    carray_init type_methods_long 'i' (some (.sequence [.long 3, .long 1, .long 2]))
        = .ok (.inl { t_size := 8, step := 0, size := 3, capacity := 3,
                      items := [some 3, some 1, some 2] })
      ∧ PySequence_GetItem type_methods_long
          { t_size := 8, step := 0, size := 3, capacity := 3, items := [some 3, some 1, some 2] }
          1 = .ok (.long 1) :=
  ⟨rfl, ((C2_construct_integer type_methods_long [.long 3, .long 1, .long 2]).2.1 _ rfl).2.2
    1 (.long 1) rfl⟩

/-- Claim C3 fails as stated for the floating-point kind: `2 ^ 53 + 1` passes
`check_double`, and appending it to the empty array built with selector `d`
yields length 1, but `get(0)` returns the float `2 ^ 53`, the double that was
stored, which is not the appended value and does not compare equal to it.
NaN passes `check_double` too, and the NaN read back does not compare equal to
the NaN appended. -/
theorem C3_double_append_not_read_back :
    type_methods_double.check_type (.long (2 ^ 53 + 1)) = .ok ()
      ∧ carray_init type_methods_double 'd' none
          = .ok (.inr (carray_object.mk 8 0 0 0 []))
      ∧ append_all type_methods_double (carray_object.mk 8 0 0 0 []) [.long (2 ^ 53 + 1)]
          = .ok (carray_object.mk 8 0 1 1 [some (.finite 9007199254740992)])
      ∧ PySequence_GetItem type_methods_double
          (carray_object.mk 8 0 1 1 [some (.finite 9007199254740992)]) 0
          = .ok (.float 9007199254740992)
      ∧ PyObject.float 9007199254740992 ≠ .long (2 ^ 53 + 1)
      ∧ PyObject_RichCompareBool (.float 9007199254740992) (.long (2 ^ 53 + 1)) .Py_EQ = 0
      ∧ type_methods_double.check_type .float_nan = .ok ()
      ∧ append_all type_methods_double (carray_object.mk 8 0 0 0 []) [.float_nan]
          = .ok (carray_object.mk 8 0 1 1 [some .nan])
      ∧ PySequence_GetItem type_methods_double (carray_object.mk 8 0 1 1 [some .nan]) 0
          = .ok .float_nan
      ∧ PyObject_RichCompareBool .float_nan .float_nan .Py_EQ = 0 := by
  refine ⟨rfl, rfl, rfl, rfl, ?_, rfl, rfl, rfl, rfl, rfl⟩
  intro h
  cases h

/-- Claim C3 as amended: appending `n` valid values in order to an empty array
of either kind succeeds and yields length `n`; at every step the append writes
at index `length`, leaves the earlier elements as they were and increments the
length by exactly one; `get(i)` returns the `i`-th appended value as the kind
stores it, which for the integer kind is the value itself and for the
floating-point kind is the value itself when it is a finite float. -/
theorem C3_append_sequence {α : Type} (m : object_methods α) (vs : List PyObject)
    (hv : ∀ v ∈ vs, m.check_type v = .ok ()) :
    ∃ a0 a, carray_init_T m carray_new none = .ok a0
      ∧ a0.size = 0
      ∧ append_all m a0 vs = .ok a
      ∧ a.size = vs.length
      ∧ (∀ (i : Nat) (v : PyObject), vs[i]? = some v →
          PySequence_GetItem m a (i : Int) = .ok (m.from_c (m.as_c v)))
      ∧ (∀ pre v post, vs = pre ++ v :: post →
          ∃ b b1, append_all m a0 pre = .ok b
            ∧ carray_append m b v = .ok b1
            ∧ b1.size = b.size + 1
            ∧ PySequence_GetItem m b1 (b.size : Int) = .ok (m.from_c (m.as_c v))
            ∧ ∀ i : Int, 0 ≤ i → i < (b.size : Int) →
                PySequence_GetItem m b1 i = PySequence_GetItem m b i)
      ∧ (∀ v, type_methods_long.check_type v = .ok () →
          type_methods_long.from_c (type_methods_long.as_c v) = v)
      ∧ (∀ q : ℚ, type_methods_double.from_c (type_methods_double.as_c (.float q)) = .float q)
      ∧ carray_init type_methods_double 'i' none
          = (carray_init_T type_methods_long carray_new none).map Sum.inl
      ∧ carray_init type_methods_double 'd' none
          = (carray_init_T type_methods_double carray_new none).map Sum.inr := by
  have hrt : ∀ v, type_methods_long.check_type v = .ok () →
      type_methods_long.from_c (type_methods_long.as_c v) = v := by
    intro v hc
    obtain ⟨n, hn, hr⟩ := (check_long_ok_iff v).mp hc
    rw [hn]
    exact long_round_trip n hr
  obtain ⟨hm0, hv0⟩ := @carray_new_models α m.t_size
  obtain ⟨a, ha, hma, _, hsa⟩ := append_all_spec m vs _ [] hm0 hv0 hv
  refine ⟨_, a, rfl, rfl, ha, ?_, ?_, ?_, hrt, fun q => rfl, rfl, rfl⟩
  · rw [hsa]
    simp [carray_new]
  · intro i v hx
    have hx1 : ([] ++ vs.map m.as_c)[i]? = some (m.as_c v) := by
      simp [hx]
    rw [getitem_spec m a _ i _ hma hx1]
  · intro pre v post hs
    have hpre : ∀ w ∈ pre, m.check_type w = .ok () := by
      intro w hw
      exact hv w (by rw [hs]; exact List.mem_append_left _ hw)
    have hcv : m.check_type v = .ok () :=
      hv v (by rw [hs]; simp)
    obtain ⟨b, hb, hmb, hvb, hsb⟩ := append_all_spec m pre _ [] hm0 hv0 hpre
    obtain ⟨b1, hb1, hmb1, _, hsb1, _⟩ :=
      carray_append_spec m b _ v hmb hvb hcv
    refine ⟨b, b1, hb, hb1, hsb1, ?_, ?_⟩
    · have hx1 : (([] ++ pre.map m.as_c) ++ [m.as_c v])[b.size]?
          = some (m.as_c v) := by
        rw [hmb.1]
        simp
      rw [getitem_spec m b1 _ b.size _ hmb1 hx1]
    · intro i h0 hlt
      have hk : i.toNat < ([] ++ pre.map m.as_c).length := by
        rw [← hmb.1]
        omega
      have hx0 : ([] ++ pre.map m.as_c)[i.toNat]?
          = some ([] ++ pre.map m.as_c)[i.toNat] := List.getElem?_eq_getElem hk
      have hx1 : (([] ++ pre.map m.as_c) ++ [m.as_c v])[i.toNat]?
          = some ([] ++ pre.map m.as_c)[i.toNat] := by
        rw [List.getElem?_append_left hk, hx0]
      rw [getitem_nonneg _ _ _ h0, getitem_nonneg _ _ _ h0,
        get_item_spec m b1 _ i _ hmb1 h0 hx1,
        get_item_spec m b _ i _ hmb h0 hx0]

/-- Witness for claim C3 as amended: appending 3, 1, 2 to the empty integer
array, and the floats 3/2, 5/2 to the empty floating-point array. -/
theorem C3_append_sequence_witness :
    (∀ v ∈ [PyObject.long 3, .long 1, .long 2], type_methods_long.check_type v = .ok ())
      ∧ (∃ a, append_all type_methods_long
            { t_size := 8, step := 0, size := 0, capacity := 0, items := [] }
            [.long 3, .long 1, .long 2] = .ok a
          ∧ a.size = 3
          ∧ PySequence_GetItem type_methods_long a 2 = .ok (.long 2))
      ∧ (∀ v ∈ [PyObject.float (mkRat 3 2), .float (mkRat 5 2)],
          type_methods_double.check_type v = .ok ())
      ∧ (∃ a, append_all type_methods_double
            { t_size := 8, step := 0, size := 0, capacity := 0, items := [] }
            [.float (mkRat 3 2), .float (mkRat 5 2)] = .ok a
          ∧ a.size = 2
          ∧ PySequence_GetItem type_methods_double a 1 = .ok (.float (mkRat 5 2))) := by
  have hv : ∀ v ∈ [PyObject.long 3, .long 1, .long 2],
      type_methods_long.check_type v = .ok () := by
    intro v hm
    simp only [List.mem_cons, List.mem_singleton, List.not_mem_nil, or_false] at hm
    rcases hm with rfl | rfl | rfl <;> rfl
  have hd : ∀ v ∈ [PyObject.float (mkRat 3 2), .float (mkRat 5 2)],
      type_methods_double.check_type v = .ok () := by
    intro v hm
    simp only [List.mem_cons, List.mem_singleton, List.not_mem_nil, or_false] at hm
    rcases hm with rfl | rfl <;> rfl
  obtain ⟨a0, a, h0, _, ha, hs, hg, _⟩ :=
    C3_append_sequence type_methods_long [.long 3, .long 1, .long 2] hv
  obtain ⟨d0, d, k0, _, ka, ks, kg, _⟩ :=
    C3_append_sequence type_methods_double [.float (mkRat 3 2), .float (mkRat 5 2)] hd
  cases h0
  cases k0
  exact ⟨hv, ⟨a, ha, hs, hg 2 (.long 2) rfl⟩, hd, ⟨d, ka, ks, kg 1 (.float (mkRat 5 2)) rfl⟩⟩

/-- Claim C4, evaluated where the code departs from it: on the integer array
`[3, 1, 2]`, reachable by construction, `insert(2 ** 32 + 1, 7)` has its index
stored by format `n` through the address of the `int` variable `index`.  The
store runs past the variable, so the call has no defined result; the value
left in the variable is 1, not `2 ^ 32 + 1`, and the rest of the function
inserts 7 at position 1, leaving `[3, 7, 1, 2]`, where the claim places it at
`clamp(2 ^ 32 + 1, 0, 3) = 3`, that is `[3, 1, 2, 7]`. -/
theorem C4_insert_index_through_int :
    Reachable type_methods_long (carray_object.mk 8 0 3 3 [some 3, some 1, some 2])
      ∧ Models (carray_object.mk 8 0 3 3 [some (3 : Int), some 1, some 2]) [3, 1, 2]
      ∧ type_methods_long.check_type (.long 7) = .ok ()
      ∧ max 0 (min (resolved 3 (2 ^ 32 + 1)) 3) = 3
      ∧ carray_insert_args type_methods_long (carray_object.mk 8 0 3 3 [some 3, some 1, some 2])
          (2 ^ 32 + 1) (.long 7) = .error .fault
      ∧ c_int (2 ^ 32 + 1) = 1
      ∧ carray_insert type_methods_long (carray_object.mk 8 0 3 3 [some 3, some 1, some 2])
          (c_int (2 ^ 32 + 1)) (.long 7)
          = .ok (carray_object.mk 8 0 4 7 [some 3, some 7, some 1, some 2, none, none, none])
      ∧ Models (carray_object.mk 8 0 4 7
          [some (3 : Int), some 7, some 1, some 2, none, none, none]) [3, 7, 1, 2]
      ∧ ¬ Models (carray_object.mk 8 0 4 7
          [some (3 : Int), some 7, some 1, some 2, none, none, none]) [3, 1, 2, 7] := by
  refine ⟨Reachable.construct (some (.sequence [.long 3, .long 1, .long 2])) _ rfl,
    ⟨rfl, rfl⟩, rfl, by decide, rfl, by decide, rfl, ⟨rfl, rfl⟩, ?_⟩
  intro h
  have := h.2
  revert this
  decide

/-- Claim C5, evaluated where the code departs from it: `remove_at(0)` on the
integer array `[3, 1, 2, 9, 5]` has its index stored by format `n` through the
address of the `int` variable `index`, past the variable, so the call has no
defined result; and on `[3, 1, 2]` the index `2 ** 32`, whose resolved value
is outside `[0, 3)`, leaves 0 in the variable, so that the rest of the
function removes and returns element 0 instead of raising `IndexError`.
Without an argument nothing is stored and the call is the rest of the
function. -/
theorem C5_pop_index_through_int :
    carray_pop_args type_methods_long
        (carray_object.mk 8 0 5 5 [some 3, some 1, some 2, some 9, some 5]) (some 0)
        = .error .fault
      ∧ ¬ (0 ≤ resolved 3 (2 ^ 32) ∧ resolved 3 (2 ^ 32) < 3)
      ∧ carray_pop_args type_methods_long (carray_object.mk 8 0 3 3 [some 3, some 1, some 2])
          (some (2 ^ 32)) = .error .fault
      ∧ c_int (2 ^ 32) = 0
      ∧ carray_pop type_methods_long (carray_object.mk 8 0 3 3 [some 3, some 1, some 2])
          (some (c_int (2 ^ 32)))
          = .ok (carray_object.mk 8 0 2 3 [some 1, some 2, some 2], .long 3)
      ∧ carray_pop type_methods_long (carray_object.mk 8 0 3 3 [some 3, some 1, some 2])
          (some (c_int (2 ^ 32))) ≠ .error (.PyErr .IndexError)
      ∧ carray_pop_args type_methods_long (carray_object.mk 8 0 3 3 [some 3, some 1, some 2]) none
          = carray_pop type_methods_long (carray_object.mk 8 0 3 3 [some 3, some 1, some 2])
              none := by
  refine ⟨rfl, by decide, rfl, by decide, rfl, ?_, rfl⟩
  intro h
  cases h

/-- Claim C6, evaluated where the code departs from it: on the integer array
`[3, 1, 2]` the index `2 ** 32` is not negative, so the host passes it to the
`sq_item` slot as it is; its resolved value is outside `[0, 3)`, where the
claim has `IndexError`, but `get_item` reads its `int` parameter from it, which
is 0, and returns element 0. -/
theorem C6_get_index_through_int :
    Models (carray_object.mk 8 0 3 3 [some (3 : Int), some 1, some 2]) [3, 1, 2]
      ∧ ¬ (0 ≤ resolved 3 (2 ^ 32) ∧ resolved 3 (2 ^ 32) < 3)
      ∧ c_int (2 ^ 32) = 0
      ∧ sq_item type_methods_long (carray_object.mk 8 0 3 3 [some 3, some 1, some 2]) (2 ^ 32)
          = .ok (.long 3)
      ∧ sq_item type_methods_long (carray_object.mk 8 0 3 3 [some 3, some 1, some 2]) (2 ^ 32)
          ≠ .error (.PyErr .IndexError) := by
  refine ⟨⟨rfl, rfl⟩, by decide, by decide, rfl, ?_⟩
  intro h
  cases h

/-- Claim C7, evaluated where the code departs from it: the integer array built
from `[1, 2, 3]` and popped once has length 2 and capacity 3; its reversed copy
is a reachable array holding `[2, 1]` whose block has 2 slots while its capacity
field is 3, so `insert(0, 9)` with the valid value 9 does not grow the block and
its `memmove` writes slot 2, outside the block: the insert has no defined
result, and insert followed by `remove_at` does not restore the sequence. -/
theorem C7_insert_on_reversed_copy_faults :
    carray_init_T type_methods_long carray_new
        (some (.sequence [.long 1, .long 2, .long 3]))
        = .ok (carray_object.mk 8 0 3 3 [some 1, some 2, some 3])
      ∧ carray_pop type_methods_long (carray_object.mk 8 0 3 3 [some 1, some 2, some 3]) none
        = .ok (carray_object.mk 8 0 2 3 [some 1, some 2, some 3], .long 3)
      ∧ carray_reversed type_methods_long (carray_object.mk 8 0 2 3 [some 1, some 2, some 3])
        = .ok (carray_object.mk 8 0 2 3 [some 2, some 1])
      ∧ Reachable type_methods_long (carray_object.mk 8 0 2 3 [some 2, some 1])
      ∧ Models (carray_object.mk 8 0 2 3 [some (2 : Int), some 1]) [2, 1]
      ∧ type_methods_long.check_type (.long 9) = .ok ()
      ∧ carray_insert type_methods_long (carray_object.mk 8 0 2 3 [some 2, some 1]) 0 (.long 9)
        = .error .fault := by
  refine ⟨rfl, rfl, rfl, ?_, ⟨rfl, rfl⟩, rfl, rfl⟩
  exact Reachable.reversed _ _
    (Reachable.pop _ _ none (.long 3)
      (Reachable.construct (some (.sequence [.long 1, .long 2, .long 3])) _ rfl) rfl) rfl

/-- Claim C8: on an array holding `xs`, `remove_value(v)` never fails; when `v`
is a number and `k` is the first index whose element compares equal to `v`,
the result is the state `remove_at(k)` leaves (shrink policy included), which
holds `xs` with position `k` erased; when no element compares equal to `v`, or
`v` is not a number, the array is returned as it was. -/
theorem C8_remove_value {α : Type} (m : object_methods α) (a : carray_object α)
    (xs : List α) (v : PyObject) (h : Models a xs) :
    (∃ a1, carray_remove m a v = .ok a1)
      ∧ (∀ (k : Nat) (x : α), (PyFloat_Check v = true ∨ PyLong_Check v = true) →
          xs[k]? = some x →
          PyObject_RichCompareBool v (m.from_c x) .Py_EQ ≠ 0 →
          (∀ (j : Nat) (y : α), j < k → xs[j]? = some y →
            PyObject_RichCompareBool v (m.from_c y) .Py_EQ = 0) →
          ∃ a1, carray_remove m a v = .ok a1
            ∧ carray_pop m a (some (k : Int)) = .ok (a1, m.from_c x)
            ∧ Models a1 (xs.eraseIdx k)
            ∧ a1.size = xs.length - 1)
      ∧ ((∀ (j : Nat) (y : α), xs[j]? = some y →
            PyObject_RichCompareBool v (m.from_c y) .Py_EQ = 0) →
          carray_remove m a v = .ok a)
      ∧ ((PyFloat_Check v = false ∧ PyLong_Check v = false) →
          carray_remove m a v = .ok a) := by
  have hfound : ∀ (k : Nat) (x : α), (PyFloat_Check v = true ∨ PyLong_Check v = true) →
      xs[k]? = some x →
      PyObject_RichCompareBool v (m.from_c x) .Py_EQ ≠ 0 →
      (∀ (j : Nat) (y : α), j < k → xs[j]? = some y →
        PyObject_RichCompareBool v (m.from_c y) .Py_EQ = 0) →
      ∃ a1, carray_remove m a v = .ok a1
        ∧ carray_pop m a (some (k : Int)) = .ok (a1, m.from_c x)
        ∧ Models a1 (xs.eraseIdx k)
        ∧ a1.size = xs.length - 1 := by
    intro k x hnum hk hx hfirst
    obtain ⟨a1, h1, h2, h3⟩ := carray_remove_found m a xs v k x h hnum hk hx hfirst
    refine ⟨a1, h1, h2, h3, ?_⟩
    have hkl : k < xs.length := by
      rcases Nat.lt_or_ge k xs.length with hlt | hge
      · exact hlt
      · rw [List.getElem?_eq_none hge] at hk
        cases hk
    rw [h3.1, List.length_eraseIdx, if_pos hkl]
  refine ⟨?_, hfound, carray_remove_absent m a xs v h, carray_remove_not_number m a v⟩
  by_cases hnum : PyFloat_Check v = false ∧ PyLong_Check v = false
  · exact ⟨a, carray_remove_not_number m a v hnum⟩
  · have hnum1 : PyFloat_Check v = true ∨ PyLong_Check v = true := by
      cases hf : PyFloat_Check v <;> cases hl : PyLong_Check v <;> simp [hf, hl] at hnum ⊢
    rcases first_match_split
        (fun x => PyObject_RichCompareBool v (m.from_c x) .Py_EQ ≠ 0) xs with
      hall | ⟨pre, x, post, hs, hpre, hx⟩
    · refine ⟨a, carray_remove_absent m a xs v h ?_⟩
      intro j y hy
      exact not_not.mp (hall y (List.getElem?_mem hy))
    · have hk : xs[pre.length]? = some x := by
        rw [hs, List.getElem?_append_right (Nat.le_refl _)]
        simp
      have hfirst : ∀ (j : Nat) (y : α), j < pre.length → xs[j]? = some y →
          PyObject_RichCompareBool v (m.from_c y) .Py_EQ = 0 := by
        intro j y hj hy
        rw [hs, List.getElem?_append_left hj] at hy
        exact not_not.mp (hpre y (List.getElem?_mem hy))
      obtain ⟨a1, h1, _⟩ := hfound pre.length x hnum1 hk hx hfirst
      exact ⟨a1, h1⟩

/-- Witness for claim C8: `remove_value(2)` on `[1, 2, 9, 5]` leaves `[1, 9, 5]`. -/
theorem C8_remove_value_witness :
    Models (carray_object.mk 8 0 4 5 [some (1 : Int), some 2, some 9, some 5, some 5])
        [1, 2, 9, 5]
      ∧ ∃ a1, carray_remove type_methods_long
            (carray_object.mk 8 0 4 5 [some 1, some 2, some 9, some 5, some 5]) (.long 2)
            = .ok a1
          ∧ Models a1 [1, 9, 5] := by
  have hm : Models (carray_object.mk 8 0 4 5 [some (1 : Int), some 2, some 9, some 5, some 5])
      [1, 2, 9, 5] := ⟨rfl, rfl⟩
  obtain ⟨a1, h1, _, h3, _⟩ :=
    (C8_remove_value type_methods_long _ _ (.long 2) hm).2.1 1 2 (Or.inr rfl) rfl
      (by decide)
      (by
        intro j y hj hy
        have hj0 : j = 0 := by omega
        subst hj0
        cases hy
        rfl)
  exact ⟨hm, a1, h1, h3⟩

/-- Claim C11: on an array holding `xs` with length `L` and capacity `c`, a
successful append or insert of a valid value leaves the capacity `2c + 1` when
`L = c` and `c` when `L < c`; the elements already present keep their values,
in their positions for append and in their order around the new element for
insert; and on an array whose block has `capacity` slots both calls succeed. -/
theorem C11_growth_policy {α : Type} (m : object_methods α) (a : carray_object α)
    (xs : List α) (v : PyObject) (i : Int) (h : Models a xs) (hL : a.size ≤ a.capacity) :
    (∀ a1, carray_append m a v = .ok a1 →
        (a.size = a.capacity → a1.capacity = 2 * a.capacity + 1)
          ∧ (a.size < a.capacity → a1.capacity = a.capacity)
          ∧ Models a1 (xs ++ [m.as_c v])
          ∧ ∀ (k : Nat) (x : α), xs[k]? = some x →
              PySequence_GetItem m a1 (k : Int) = .ok (m.from_c x))
      ∧ (∀ a1, carray_insert m a i v = .ok a1 →
        (a.size = a.capacity → a1.capacity = 2 * a.capacity + 1)
          ∧ (a.size < a.capacity → a1.capacity = a.capacity)
          ∧ Models a1 (xs.take (max 0 (min (resolved xs.length i) xs.length)).toNat
              ++ m.as_c v :: xs.drop (max 0 (min (resolved xs.length i) xs.length)).toNat))
      ∧ (m.check_type v = .ok () → a.capacity ≤ a.items.length →
          (∃ a1, carray_append m a v = .ok a1) ∧ ∃ a1, carray_insert m a i v = .ok a1) := by
  have hres : get_index xs.length i = resolved xs.length i := by
    simp only [get_index, resolved]
    split_ifs <;> omega
  refine ⟨?_, ?_, ?_⟩
  · intro a1 hok
    obtain ⟨_, h2⟩ := carray_append_fields hok
    have hm1 := carray_append_models_of_ok m a a1 xs v h hL hok
    refine ⟨?_, ?_, hm1, ?_⟩
    · intro he
      rw [h2, if_pos (by omega)]
      omega
    · intro hlt
      rw [h2, if_neg (by omega)]
    · intro k x hx
      apply getitem_spec m a1 _ k x hm1
      have hk : k < xs.length := by
        rcases Nat.lt_or_ge k xs.length with hlt | hge
        · exact hlt
        · rw [List.getElem?_eq_none hge] at hx
          cases hx
      rw [List.getElem?_append_left hk, hx]
  · intro a1 hok
    obtain ⟨_, h2⟩ := carray_insert_fields hok
    have hm1 := carray_insert_models_of_ok m a a1 xs i v h hL hok
    rw [hres] at hm1
    refine ⟨?_, ?_, hm1⟩
    · intro he
      rw [h2, if_pos (by omega)]
      omega
    · intro hlt
      rw [h2, if_neg (by omega)]
  · intro hc hb
    obtain ⟨a1, h1, _⟩ := carray_append_spec m a xs v h ⟨hL, hb⟩ hc
    obtain ⟨a2, h2, _⟩ := carray_insert_spec m a xs i v h ⟨hL, hb⟩ hc
    exact ⟨⟨a1, h1⟩, ⟨a2, h2⟩⟩

/-- Witness for claim C11: appending 5 to the full array `[3, 1, 2]` (capacity
3) succeeds and leaves capacity 7. -/
theorem C11_growth_policy_witness :
    Models (carray_object.mk 8 0 3 3 [some (3 : Int), some 1, some 2]) [3, 1, 2]
      ∧ carray_append type_methods_long (carray_object.mk 8 0 3 3 [some 3, some 1, some 2])
          (.long 5)
        = .ok (carray_object.mk 8 0 4 7 [some 3, some 1, some 2, some 5, none, none, none])
      ∧ (carray_object.mk 8 0 4 7
            [some (3 : Int), some 1, some 2, some 5, none, none, none]).capacity = 2 * 3 + 1 := by
  have hm : Models (carray_object.mk 8 0 3 3 [some (3 : Int), some 1, some 2]) [3, 1, 2] :=
    ⟨rfl, rfl⟩
  have hc := (C11_growth_policy type_methods_long _ _ (.long 5) 0 hm (Nat.le_refl _)).1 _ rfl
  exact ⟨hm, rfl, hc.1 rfl⟩

/-- Claim C12: on an array with capacity `c`, a successful `remove_at`, or a
`remove_value` that finds a match, leaves length `L' = L - 1` and capacity
exactly `L'` when `L' ≤ c / 2` (integer division) and `c` otherwise, after
every single removal; the storage footprint is then the resulting capacity
times the element size, which in a reachable state is the `sizeof` of the row. -/
theorem C12_shrink_policy {α : Type} (m : object_methods α) (a : carray_object α)
    (xs : List α) (h : Models a xs) :
    (∀ (arg : Option Int) (a1 : carray_object α) (w : PyObject),
        carray_pop m a arg = .ok (a1, w) →
        1 ≤ a.size ∧ a1.size = a.size - 1
          ∧ (a1.size ≤ a.capacity / 2 → a1.capacity = a1.size)
          ∧ (¬ a1.size ≤ a.capacity / 2 → a1.capacity = a.capacity)
          ∧ get_sizeof a1 = a1.capacity * a.t_size
          ∧ (Reachable m a → get_sizeof a1 = a1.capacity * m.t_size))
      ∧ (∀ (v : PyObject) (k : Nat) (x : α),
          (PyFloat_Check v = true ∨ PyLong_Check v = true) →
          xs[k]? = some x →
          PyObject_RichCompareBool v (m.from_c x) .Py_EQ ≠ 0 →
          (∀ (j : Nat) (y : α), j < k → xs[j]? = some y →
            PyObject_RichCompareBool v (m.from_c y) .Py_EQ = 0) →
          ∃ a1, carray_remove m a v = .ok a1
            ∧ a1.size = a.size - 1
            ∧ (a1.size ≤ a.capacity / 2 → a1.capacity = a1.size)
            ∧ (¬ a1.size ≤ a.capacity / 2 → a1.capacity = a.capacity)
            ∧ get_sizeof a1 = a1.capacity * a.t_size
            ∧ (Reachable m a → get_sizeof a1 = a1.capacity * m.t_size)) := by
  have hpop : ∀ (arg : Option Int) (a1 : carray_object α) (w : PyObject),
      carray_pop m a arg = .ok (a1, w) →
      1 ≤ a.size ∧ a1.size = a.size - 1
        ∧ (a1.size ≤ a.capacity / 2 → a1.capacity = a1.size)
        ∧ (¬ a1.size ≤ a.capacity / 2 → a1.capacity = a.capacity)
        ∧ get_sizeof a1 = a1.capacity * a.t_size
        ∧ (Reachable m a → get_sizeof a1 = a1.capacity * m.t_size) := by
    intro arg a1 w hok
    obtain ⟨h1, h2⟩ := carray_pop_fields hok
    obtain ⟨h3, _, h5⟩ := carray_pop_kept hok
    refine ⟨h5, h1, ?_, ?_, ?_, ?_⟩
    · intro hle
      rw [h2, if_pos (by rw [← h1]; exact hle), h1]
    · intro hgt
      rw [h2, if_neg (by rw [← h1]; exact hgt)]
    · simp only [get_sizeof, h3]
    · intro hr
      simp only [get_sizeof, h3, reachable_t_size m a hr]
  refine ⟨hpop, ?_⟩
  intro v k x hnum hk hx hfirst
  obtain ⟨a1, h1, h2, _⟩ := carray_remove_found m a xs v k x h hnum hk hx hfirst
  exact ⟨a1, h1, (hpop _ a1 _ h2).2⟩

/-- Witness for claim C12: popping `[3, 1, 2]` (capacity 4) twice keeps capacity
4 for length 2 and shrinks to capacity 1 for length 1. -/
theorem C12_shrink_policy_witness :
    Models (carray_object.mk 8 0 2 4 [some (3 : Int), some 1, some 2, none]) [3, 1]
      ∧ carray_pop type_methods_long (carray_object.mk 8 0 2 4 [some 3, some 1, some 2, none])
          none = .ok (carray_object.mk 8 0 1 1 [some 3], .long 1)
      ∧ (carray_object.mk 8 0 1 1 [some (3 : Int)]).capacity
          = (carray_object.mk 8 0 1 1 [some (3 : Int)]).size
      ∧ get_sizeof (carray_object.mk 8 0 1 1 [some (3 : Int)]) = 1 * 8 := by
  have hm : Models (carray_object.mk 8 0 2 4 [some (3 : Int), some 1, some 2, none]) [3, 1] :=
    ⟨rfl, rfl⟩
  have hc := (C12_shrink_policy type_methods_long _ _ hm).1 none _ _ rfl
  exact ⟨hm, rfl, hc.2.2.1 (by decide), hc.2.2.2.2.1⟩

/-- Claim C13, evaluated where the code departs from it: on the integer array
`[3, 1, 2]`, `set` at the index `2 ** 32`, whose resolved value is outside
`[0, 3)`, reaches `set_item` through the `sq_ass_item` slot as the `int` 0:
the call returns without an error and has overwritten element 0, where the
claim has `IndexError` and an unchanged array.  An `insert` whose value fails
validation stores its index past the `int` variable before the value is
looked at, so that call has no defined result. -/
theorem C13_set_index_through_int :
    ¬ (0 ≤ resolved 3 (2 ^ 32) ∧ resolved 3 (2 ^ 32) < 3)
      ∧ type_methods_long.check_type (.long 9) = .ok ()
      ∧ sq_ass_item type_methods_long (carray_object.mk 8 0 3 3 [some 3, some 1, some 2])
          (2 ^ 32) (.long 9)
          = (carray_object.mk 8 0 3 3 [some 9, some 1, some 2], .ok ())
      ∧ carray_object.mk 8 0 3 3 [some (9 : Int), some 1, some 2]
          ≠ carray_object.mk 8 0 3 3 [some 3, some 1, some 2]
      ∧ type_methods_long.check_type (.long (2 ^ 63)) = .error .TypeError
      ∧ carray_insert_args type_methods_long (carray_object.mk 8 0 3 3 [some 3, some 1, some 2])
          0 (.long (2 ^ 63)) = .error .fault := by
  refine ⟨by decide, rfl, rfl, by decide, rfl, rfl⟩

/-- Claim C14: for an array holding `xs` and a sequence `ys` of numbers,
`equals` answers true exactly when `ys` has the length of the array and every
pair of elements at one position compares equal, and false otherwise; when the
lengths differ the answer is false whatever the block holds, no element being
read or compared. -/
theorem C14_equals {α : Type} (m : object_methods α) (a : carray_object α)
    (xs : List α) (ys : List PyObject) (h : Models a xs)
    (_ : ∀ y ∈ ys, PyFloat_Check y = true ∨ PyLong_Check y = true) :
    (carray_compare m a (.sequence ys) .Py_EQ = .ok .Py_True
        ↔ ys.length = xs.length
          ∧ ∀ (i : Nat) (x : α) (y : PyObject), xs[i]? = some x → ys[i]? = some y →
              PyObject_RichCompareBool (m.from_c x) y .Py_EQ ≠ 0)
      ∧ (carray_compare m a (.sequence ys) .Py_EQ = .ok .Py_True
          ∨ carray_compare m a (.sequence ys) .Py_EQ = .ok .Py_False)
      ∧ (∀ (b : carray_object α) (other : PyIterable),
          (b.size : Int) ≠ PySequence_Size other →
          carray_compare m b other .Py_EQ = .ok .Py_False) := by
  have hdiff : ∀ (b : carray_object α) (other : PyIterable),
      (b.size : Int) ≠ PySequence_Size other →
      carray_compare m b other .Py_EQ = .ok .Py_False := by
    intro b other hne
    simp only [carray_compare, ne_eq, not_true_eq_false, if_false, hne, not_false_eq_true,
      if_true]
  have hs := h.1
  by_cases hl : ys.length = xs.length
  · have hsz : ¬ ((a.size : Int) ≠ PySequence_Size (.sequence ys)) := by
      simp only [PySequence_Size, ne_eq, not_not, hs, hl]
    have hrun : carray_compare m a (.sequence ys) .Py_EQ
        = carray_compare_loop m a (.sequence ys) xs.length 0 := by
      unfold carray_compare
      rw [if_neg (by simp), if_neg hsz, hs]
    obtain ⟨h1, h2⟩ := carray_compare_loop_spec m a xs ys h hl xs.length 0 (by omega)
    by_cases hall : ∀ (i : Nat) (x : α) (y : PyObject), xs[i]? = some x → ys[i]? = some y →
        PyObject_RichCompareBool (m.from_c x) y .Py_EQ ≠ 0
    · have ht := h1 (fun j x y _ => hall j x y)
      rw [hrun]
      exact ⟨⟨fun _ => ⟨hl, hall⟩, fun _ => ht⟩, Or.inl ht, hdiff⟩
    · have hex : ∃ (j : Nat) (x : α) (y : PyObject), 0 ≤ j ∧ xs[j]? = some x ∧ ys[j]? = some y
          ∧ PyObject_RichCompareBool (m.from_c x) y .Py_EQ = 0 := by
        by_contra hno
        apply hall
        intro i x y hx hy hz
        exact hno ⟨i, x, y, Nat.zero_le _, hx, hy, hz⟩
      have hf := h2 hex
      rw [hrun, hf]
      refine ⟨⟨?_, ?_⟩, Or.inr rfl, hdiff⟩
      · intro hc
        cases hc
      · rintro ⟨_, hall1⟩
        exact absurd hall1 hall
  · have hne : (a.size : Int) ≠ PySequence_Size (.sequence ys) := by
      simp only [PySequence_Size, ne_eq, hs]
      omega
    have hf := hdiff a (.sequence ys) hne
    rw [hf]
    refine ⟨⟨?_, ?_⟩, Or.inr rfl, hdiff⟩
    · intro hc
      cases hc
    · rintro ⟨hl1, _⟩
      exact absurd hl1 hl

/-- Witness for claim C14: `[3, 1, 2]` equals the sequence `[3, 1.0, 2]`, which
has its length and compares equal at position 1. -/
theorem C14_equals_witness :
    Models (carray_object.mk 8 0 3 3 [some (3 : Int), some 1, some 2]) [3, 1, 2]
      ∧ (∀ y ∈ [PyObject.long 3, .float 1, .long 2],
          PyFloat_Check y = true ∨ PyLong_Check y = true)
      ∧ carray_compare type_methods_long (carray_object.mk 8 0 3 3 [some 3, some 1, some 2])
          (.sequence [.long 3, .float 1, .long 2]) .Py_EQ = .ok .Py_True
      ∧ PyObject_RichCompareBool (type_methods_long.from_c 1) (.float 1) .Py_EQ ≠ 0 := by
  have hm : Models (carray_object.mk 8 0 3 3 [some (3 : Int), some 1, some 2]) [3, 1, 2] :=
    ⟨rfl, rfl⟩
  have hn : ∀ y ∈ [PyObject.long 3, .float 1, .long 2],
      PyFloat_Check y = true ∨ PyLong_Check y = true := by
    intro y hy
    simp only [List.mem_cons, List.mem_singleton, List.not_mem_nil, or_false] at hy
    rcases hy with rfl | rfl | rfl
    · exact Or.inr rfl
    · exact Or.inl rfl
    · exact Or.inr rfl
  have hc := ((C14_equals type_methods_long _ _ _ hm hn).1.mp rfl).2 1 1 (.float 1) rfl rfl
  exact ⟨hm, hn, rfl, hc⟩

/-- Claim C15: on an array holding `xs` (length `L`) that is not changed during
the pass, after `iterate()` the first `L` advance steps yield `get(0)`, ...,
`get(L - 1)` in that order and every later step signals exhaustion; calling
`iterate()` again after any number of steps gives the state a fresh
`iterate()` gives, so the sequence restarts at index 0; and iterating changes
neither the length, nor the capacity, nor the block. -/
theorem C15_iteration {α : Type} (m : object_methods α) (a : carray_object α)
    (xs : List α) (j : Nat) (h : Models a xs) :
    (carray_next_n m (xs.length + j) (carray_iter a)).2
        = (List.range xs.length).map (fun (i : Nat) => PySequence_GetItem m a (i : Int))
          ++ List.replicate j (.error (.PyErr .StopIteration))
      ∧ (∀ (i : Nat) (x : α), xs[i]? = some x →
          PySequence_GetItem m a (i : Int) = .ok (m.from_c x))
      ∧ (∀ n : Nat, carray_iter (carray_next_n m n (carray_iter a)).1 = carray_iter a)
      ∧ (∀ n : Nat, (carray_next_n m n (carray_iter a)).1.size = a.size
          ∧ (carray_next_n m n (carray_iter a)).1.capacity = a.capacity
          ∧ (carray_next_n m n (carray_iter a)).1.items = a.items) := by
  refine ⟨?_, fun i x hx => getitem_spec m a xs i x h hx, ?_, ?_⟩
  · have hrun := carray_next_n_spec m xs j xs.length (carray_iter a)
      (models_step a xs 0 h) (by simp only [carray_iter]; omega)
    rw [hrun, getitem_range m a xs h]
    simp only [carray_iter, List.drop_zero]
  · intro n
    obtain ⟨h1, h2, h3, h4⟩ := carray_next_n_state m n (carray_iter a)
    cases hs : (carray_next_n m n (carray_iter a)).1 with
    | mk t st sz cp it =>
      rw [hs] at h1 h2 h3 h4
      simp only [carray_iter] at h1 h2 h3 h4 ⊢
      rw [h1, h2, h3, h4]
  · intro n
    obtain ⟨_, h2, h3, h4⟩ := carray_next_n_state m n (carray_iter a)
    exact ⟨h2, h3, h4⟩

/-- Witness for claim C15: a pass over `[3, 1, 2]` followed by two more steps. -/
theorem C15_iteration_witness :
    Models (carray_object.mk 8 5 3 3 [some (3 : Int), some 1, some 2]) [3, 1, 2]
      ∧ (carray_next_n type_methods_long 5
            (carray_iter (carray_object.mk 8 5 3 3 [some 3, some 1, some 2]))).2
          = [.ok (.long 3), .ok (.long 1), .ok (.long 2),
              .error (.PyErr .StopIteration), .error (.PyErr .StopIteration)]
      ∧ (carray_next_n type_methods_long 5
            (carray_iter (carray_object.mk 8 5 3 3 [some 3, some 1, some 2]))).1.items
          = [some 3, some 1, some 2] := by
  have hm : Models (carray_object.mk 8 5 3 3 [some (3 : Int), some 1, some 2]) [3, 1, 2] :=
    ⟨rfl, rfl⟩
  have hc := C15_iteration type_methods_long _ _ 2 hm
  exact ⟨hm, hc.1, (hc.2.2.2 5).2.2⟩

/-- Claim C18, evaluated where the code departs from it: on the integer array
`[3, 1, 2, 9, 5]`, after `iterate()` and one advance step the cursor is 1;
`remove_at(0)` then has its index stored by format `n` through the address of
the `int` variable `index`, past the variable, so the call has no defined
result and what the next advance step yields is not determined.  The rest of
`carray_pop`, run on the 0 left in the variable, removes 3 and keeps the
cursor, after which an advance step yields 2, the element the claim names. -/
theorem C18_pop_at_zero_store_overruns :
    (carray_next_n type_methods_long 1
        (carray_iter (carray_object.mk 8 0 5 5 [some 3, some 1, some 2, some 9, some 5]))).1
        = carray_object.mk 8 1 5 5 [some 3, some 1, some 2, some 9, some 5]
      ∧ carray_pop_args type_methods_long
          (carray_object.mk 8 1 5 5 [some 3, some 1, some 2, some 9, some 5]) (some 0)
          = .error .fault
      ∧ carray_pop type_methods_long
          (carray_object.mk 8 1 5 5 [some 3, some 1, some 2, some 9, some 5]) (some (c_int 0))
          = .ok (carray_object.mk 8 1 4 5 [some 1, some 2, some 9, some 5, some 5], .long 3)
      ∧ (carray_next type_methods_long
          (carray_object.mk 8 1 4 5 [some 1, some 2, some 9, some 5, some 5])).2
          = .ok (.long 2) :=
  ⟨rfl, rfl, rfl, rfl⟩

/-- Claim C16, evaluated where the code departs from it: `range(2 ** 32)` is
sorted and holds the target 5 at index 5, but its size narrows to the `int` 0,
`right` starts at -1, the loop is skipped and `None` is returned.  With a
target that cannot be ordered against the elements (`[1, 2, 3]` and a
non-number) `None` is returned with `TypeError` left set, which the host
reports as `SystemError`.  On `[1, 2, 2, 3, 5]` the target 2 is found at
index 1, and the search returns for every operand and target. -/
theorem C16_size_narrowed_to_int :
    (range_objects (2 ^ 32)).Pairwise (fun x y => x.value ≤ y.value)
      ∧ (range_objects (2 ^ 32))[5]? = some (.long 5)
      ∧ PySequence_Size (.sequence (range_objects (2 ^ 32))) = 2 ^ 32
      ∧ c_int (2 ^ 32) - 1 = -1
      ∧ binary_search (.sequence (range_objects (2 ^ 32))) (.long 5) = some (.ok (none, none))
      ∧ binary_search (.sequence [.long 1, .long 2, .long 3]) (.other 0)
          = some (.ok (none, some .TypeError))
      ∧ binary_search (.sequence [.long 1, .long 2, .long 2, .long 3, .long 5]) (.long 2)
          = some (.ok (some 1, none))
      ∧ (∀ (iterable : PyIterable) (v : PyObject), binary_search iterable v ≠ none) := by
  have hs : PySequence_Size (.sequence (range_objects (2 ^ 32))) = 2 ^ 32 := by
    simp only [PySequence_Size, range_objects, List.length_map, List.length_range]
    norm_num
  have hc : c_int (2 ^ 32) = 0 := by decide
  refine ⟨?_, ?_, hs, by decide, ?_, rfl, rfl, binary_search_ends⟩
  · unfold range_objects
    rw [List.pairwise_map]
    refine (List.pairwise_lt_range _).imp ?_
    intro a b hab
    simp only [PyObject.value]
    exact_mod_cast Nat.le_of_lt hab
  · unfold range_objects
    rw [List.getElem?_map, List.getElem?_range (by norm_num)]
    rfl
  · unfold binary_search
    simp only [hs, hc]
    rw [binary_search_loop_done _ _ _ _ _ _ (by decide)]
    rfl

/-- Claim C17, evaluated where the code departs from it: the integer array built
from `[1, 2, 3, 4]` has a block of 4 slots for capacity 4; after one pop it has
length 3 and capacity 4, and its reversed copy is a reachable array whose
capacity field is 4 while its block has 3 slots; appending the valid value 5
to the copy does not grow the block and writes slot 3, outside it. -/
theorem C17_reversed_copy_block_below_capacity :
    carray_init_T type_methods_long carray_new
        (some (.sequence [.long 1, .long 2, .long 3, .long 4]))
        = .ok (carray_object.mk 8 0 4 4 [some 1, some 2, some 3, some 4])
      ∧ carray_pop type_methods_long (carray_object.mk 8 0 4 4 [some 1, some 2, some 3, some 4])
          none
        = .ok (carray_object.mk 8 0 3 4 [some 1, some 2, some 3, some 4], .long 4)
      ∧ carray_reversed type_methods_long
          (carray_object.mk 8 0 3 4 [some 1, some 2, some 3, some 4])
        = .ok (carray_object.mk 8 0 3 4 [some 3, some 2, some 1])
      ∧ Reachable type_methods_long (carray_object.mk 8 0 3 4 [some 3, some 2, some 1])
      ∧ (carray_object.mk 8 0 3 4 [some (3 : Int), some 2, some 1]).items.length = 3
      ∧ (carray_object.mk 8 0 3 4 [some (3 : Int), some 2, some 1]).capacity = 4
      ∧ increase_capacity (carray_object.mk 8 0 3 4 [some (3 : Int), some 2, some 1])
        = carray_object.mk 8 0 3 4 [some 3, some 2, some 1]
      ∧ cell_write (carray_object.mk 8 0 3 4 [some (3 : Int), some 2, some 1]).items 3 5
        = .error .fault
      ∧ carray_append type_methods_long (carray_object.mk 8 0 3 4 [some 3, some 2, some 1])
          (.long 5)
        = .error .fault := by
  refine ⟨rfl, rfl, rfl, ?_, rfl, rfl, rfl, rfl, rfl⟩
  exact Reachable.reversed _ _
    (Reachable.pop _ _ none (.long 4)
      (Reachable.construct (some (.sequence [.long 1, .long 2, .long 3, .long 4])) _ rfl) rfl)
    rfl

/-- Claim C19 fails as stated: with the recognised selector `i`, a source that
cannot be sized makes construction fail with `TypeError`, not with the
`ValueError` an unrecognised selector gives, and `TypeError` is the kind an
element that fails validation produces. -/
theorem C19_unsized_source_is_type_error :
    carray_init type_methods_long 'i' (some .unsized) = .error (.PyErr .TypeError)
      ∧ carray_init type_methods_long 'i' (some .unsized) ≠ .error (.PyErr .ValueError)
      ∧ carray_init type_methods_long 'x' (some .unsized) = .error (.PyErr .ValueError)
      ∧ carray_init type_methods_long 'i' (some (.sequence [.long (2 ^ 63)]))
          = .error (.PyErr .TypeError) := by
  refine ⟨rfl, ?_, rfl, rfl⟩
  intro h
  cases h

/-- Claim C19 as amended: a selector other than `i` and `d` makes construction
fail with `ValueError` whatever the source is; a recognised selector with a
source that cannot be sized fails with `TypeError`, the kind an integer element
that fails validation produces; and `ValueError` is distinct from that kind. -/
theorem C19_construction_error_kinds {D : Type} (dbl : object_methods D) (typecode : Char)
    (iterable : Option PyIterable) :
    ((typecode ≠ 'i' ∧ typecode ≠ 'd') →
        carray_init dbl typecode iterable = .error (.PyErr .ValueError))
      ∧ ((typecode = 'i' ∨ typecode = 'd') →
          carray_init dbl typecode (some .unsized) = .error (.PyErr .TypeError))
      ∧ (∀ pre x post, (∀ y ∈ pre, fits_long y) → ¬ fits_long x →
          carray_init dbl 'i' (some (.sequence (pre ++ x :: post)))
            = .error (.PyErr .TypeError))
      ∧ Failure.PyErr .ValueError ≠ Failure.PyErr .TypeError := by
  refine ⟨?_, ?_, ?_, ?_⟩
  · rintro ⟨h1, h2⟩
    simp only [carray_init, h1, h2, if_false]
  · intro h
    rcases h with h | h
    · subst h
      rfl
    · subst h
      simp only [carray_init, carray_init_T, PySequence_Size, if_true]
      rfl
  · intro pre x post hpre hx
    have hxe : type_methods_long.check_type x = .error .TypeError :=
      check_long_error x (fun hc => hx ((check_long_ok_iff x).mp hc))
    simp only [carray_init, if_true]
    rw [carray_init_T_fail type_methods_long pre post x .TypeError
      (fun y hy => (check_long_ok_iff y).mpr (hpre y hy)) hxe]
    rfl
  · intro h
    cases h

/-- Witness for claim C19 as amended: the selector `x`, and the selector `d`
with a source that cannot be sized. -/
theorem C19_construction_error_kinds_witness :
    carray_init type_methods_long 'x' (some (.sequence [.long 1])) = .error (.PyErr .ValueError)
      ∧ carray_init type_methods_long 'd' (some .unsized) = .error (.PyErr .TypeError) :=
  ⟨(C19_construction_error_kinds type_methods_long 'x' (some (.sequence [.long 1]))).1
      ⟨by decide, by decide⟩,
    (C19_construction_error_kinds type_methods_long 'd' none).2.1 (Or.inr rfl)⟩

/-- Claim C20 fails as stated: the freshly constructed empty array is reachable
and has length 0 and capacity 0, so its slack `capacity - length` is 0, which
is not smaller than its length. -/
theorem C20_empty_array_slack_not_below_length :
    Reachable type_methods_long (carray_object.mk 8 0 0 0 ([] : List (Option Int)))
      ∧ ¬ ((carray_object.mk 8 0 0 0 ([] : List (Option Int))).capacity
            - (carray_object.mk 8 0 0 0 ([] : List (Option Int))).size
          < (carray_object.mk 8 0 0 0 ([] : List (Option Int))).size) := by
  refine ⟨Reachable.construct none _ rfl, ?_⟩
  decide

/-- Claim C20 as amended: in every reachable state, length 0 implies capacity 0
and a positive length implies `capacity / 2 < length`, that is
`capacity < 2 * length`, so that the slack `capacity - length` is smaller than
a positive length. -/
theorem C20_tight_capacity {α : Type} (m : object_methods α) (a : carray_object α)
    (h : Reachable m a) :
    (a.size = 0 → a.capacity = 0)
      ∧ (0 < a.size → a.capacity / 2 < a.size ∧ a.capacity < 2 * a.size
          ∧ a.capacity - a.size < a.size) := by
  obtain ⟨t1, t2⟩ := reachable_tight m a h
  refine ⟨t1, ?_⟩
  intro hp
  have := t2 hp
  refine ⟨by omega, this, by omega⟩

/-- Witness for claim C20 as amended: the array built from `[3, 1, 2]`, and
the array `[3]` with capacity 1 that appending 3 to the empty array gives. -/
theorem C20_tight_capacity_witness :
    Reachable type_methods_long (carray_object.mk 8 0 3 3 [some 3, some 1, some 2])
      ∧ (carray_object.mk 8 0 3 3 [some (3 : Int), some 1, some 2]).capacity
          < 2 * (carray_object.mk 8 0 3 3 [some (3 : Int), some 1, some 2]).size
      ∧ (carray_object.mk 8 0 3 3 [some (3 : Int), some 1, some 2]).capacity
          - (carray_object.mk 8 0 3 3 [some (3 : Int), some 1, some 2]).size
          < (carray_object.mk 8 0 3 3 [some (3 : Int), some 1, some 2]).size := by
  have hr : Reachable type_methods_long (carray_object.mk 8 0 3 3 [some 3, some 1, some 2]) :=
    Reachable.construct (some (.sequence [.long 3, .long 1, .long 2])) _ rfl
  have hc := C20_tight_capacity type_methods_long _ hr
  exact ⟨hr, (hc.2 (by decide)).2.1, (hc.2 (by decide)).2.2⟩

end Carray
